import Mathlib

/-!
Verification of the LAN-Poker Texas Hold'em engine (`src/server.py`).

This file gives a shallow embedding of the core of the `PokerGame` class:
the 5-card and 7-card hand evaluator (`score_hand`, `evaluate_hand`), the
betting engine (`handle_player_action`, `_perform_action`, `next_player`),
the room state machine (`post_blinds`, `deal_next_street`,
`check_round_complete`, `handle_showdown`, `start_new_round`) and the
per-recipient state projection (`get_game_state`).

Modelling conventions:
* Python integers are modelled as `Int` (chips, pot, bets) or `Nat`
  (card values 0-12, suits 0-3, indices).
* Python list comparison (used by `evaluate_hand` to compare scores)
  is modelled by `pyListLt` below, lexicographic with shorter-prefix-less.
* The insertion-ordered `self.players` dict is modelled as an association
  list `List (String × PlayerState)`; dict lookup and single-entry update
  are first-match (`lookupP`, `updatePlayer`), which agrees with dict
  semantics since dict keys are unique.
* Side effects that live outside the core per the spec (socket broadcast,
  the statistics database, timers, global connection registries) are
  dropped; only the game-state mutations of each method are modelled.
* The two `while` loops (`next_player`, the skip-inactive loop of
  `deal_next_street`) are modelled with explicit fuel equal to the bound
  the Python code enforces on the loop (one full wrap of the table).
-/

/-- Python list comparison `a < b` on lists of naturals: lexicographic,
a strict prefix is smaller. -/
def pyListLt : List Nat → List Nat → Bool
  | [], [] => false
  | [], _ :: _ => true
  | _ :: _, [] => false
  | x :: xs, y :: ys =>
    if x < y then true else if y < x then false else pyListLt xs ys

/-- Python `sorted` (ascending) on naturals. -/
def sortAsc (l : List Nat) : List Nat := l.insertionSort (· ≤ ·)

/-- Python `sorted(-, reverse=True)` on naturals.  On `Nat` (no distinct
equal elements) this is the reverse of the ascending sort. -/
def sortDesc (l : List Nat) : List Nat := (sortAsc l).reverse

/-- `Card` from `server.py`: `value` 0-12 is the rank 2..Ace, `suit` 0-3 is
diamonds, clubs, hearts, spades, `showing` is the visibility flag. -/
structure Card where
  value : Nat
  suit : Nat
  showing : Bool
deriving DecidableEq, Repr

/-- `itertools.combinations(l, n)`: all sorted-position `n`-element
subsets of `l`, in the order Python emits them. -/
def combinations : Nat → List α → List (List α)
  | 0, _ => [[]]
  | _ + 1, [] => []
  | n + 1, x :: xs => (combinations n xs).map (x :: ·) ++ combinations (n + 1) xs

/-- Python `min` over a nonempty list of naturals (unused default 0 on the
empty list, which raises in Python and is unreachable here). -/
def pyMin (l : List Nat) : Nat := l.foldr min (l.headD 0)

/-- Python `max` over a nonempty list of naturals. -/
def pyMax (l : List Nat) : Nat := l.foldr max 0

/-- Core of `PokerGame.score_hand`, taking the (already ascending-sorted)
card values and the card suits.  Branches follow the source line by line. -/
def scoreVS (values suits : List Nat) : List Nat :=
  let is_flush := suits.dedup.length == 1
  let is_straight :=
    (values == List.range' (pyMin values) (pyMax values + 1 - pyMin values)) ||
    (values == [0, 1, 2, 3, 12])
  let distinct := values.dedup
  let counts := distinct.map (fun v => values.count v)
  let freq_counts := sortDesc counts
  let withCount := fun (n : Nat) => distinct.filter (fun v => values.count v == n)
  if is_straight && is_flush then
    if values == [8, 9, 10, 11, 12] then [9, 12]
    else [8, pyMax values]
  else if freq_counts.headD 0 == 4 then
    [7, (withCount 4).headD 0, (withCount 1).headD 0]
  else if freq_counts == [3, 2] then
    [6, (withCount 3).headD 0, (withCount 2).headD 0]
  else if is_flush then
    5 :: sortDesc values
  else if is_straight then
    if values == [0, 1, 2, 3, 12] then [4, 3]
    else [4, pyMax values]
  else if freq_counts.headD 0 == 3 then
    [3, (withCount 3).headD 0] ++ sortDesc (withCount 1)
  else if freq_counts.take 2 == [2, 2] then
    2 :: (sortDesc (withCount 2) ++ [(withCount 1).headD 0])
  else if freq_counts.headD 0 == 2 then
    [1, (withCount 2).headD 0] ++ sortDesc (withCount 1)
  else
    0 :: sortDesc values

/-- `PokerGame.score_hand(cards)`: sorts the values, collects the suits and
scores the 5-card hand. -/
def score_hand (cards : List Card) : List Nat :=
  scoreVS (sortAsc (cards.map Card.value)) (cards.map Card.suit)

/-- `PokerGame.evaluate_hand(hole_cards, community_cards)`: best Python-list
score over all 5-card combinations, starting from the sentinel `[0] * 8`. -/
def evaluate_hand (hole_cards community_cards : List Card) : List Nat :=
  let all_cards := hole_cards ++ community_cards
  (combinations 5 all_cards).foldl
    (fun best c => if pyListLt best (score_hand c) then score_hand c else best)
    (List.replicate 8 0)

example : score_hand [⟨0, 1, true⟩, ⟨1, 1, true⟩, ⟨2, 1, true⟩, ⟨3, 1, true⟩, ⟨12, 1, true⟩] = [8, 12] := by decide

example : score_hand [⟨8, 1, true⟩, ⟨9, 1, true⟩, ⟨10, 1, true⟩, ⟨11, 1, true⟩, ⟨12, 1, true⟩] = [9, 12] := by decide

example : score_hand [⟨0, 1, true⟩, ⟨1, 2, true⟩, ⟨2, 1, true⟩, ⟨3, 1, true⟩, ⟨12, 1, true⟩] = [4, 3] := by decide

example : score_hand [⟨0, 1, true⟩, ⟨0, 2, true⟩, ⟨2, 1, true⟩, ⟨3, 1, true⟩, ⟨12, 1, true⟩] = [1, 0, 12, 3, 2] := by decide

example : score_hand [⟨0, 1, true⟩, ⟨0, 2, true⟩, ⟨2, 1, true⟩, ⟨2, 3, true⟩, ⟨12, 1, true⟩] = [2, 2, 0, 12] := by decide

example : score_hand [⟨5, 1, true⟩, ⟨7, 2, true⟩, ⟨2, 1, true⟩, ⟨3, 1, true⟩, ⟨12, 1, true⟩] = [0, 12, 7, 5, 3, 2] := by decide

example : score_hand [⟨5, 1, true⟩, ⟨5, 2, true⟩, ⟨5, 0, true⟩, ⟨3, 1, true⟩, ⟨3, 2, true⟩] = [6, 5, 3] := by decide

example : score_hand [⟨5, 1, true⟩, ⟨5, 2, true⟩, ⟨5, 0, true⟩, ⟨5, 3, true⟩, ⟨3, 2, true⟩] = [7, 5, 3] := by decide

example : score_hand [⟨5, 1, true⟩, ⟨7, 1, true⟩, ⟨9, 1, true⟩, ⟨3, 1, true⟩, ⟨12, 1, true⟩] = [5, 12, 9, 7, 5, 3] := by decide

example : score_hand [⟨5, 1, true⟩, ⟨5, 2, true⟩, ⟨9, 1, true⟩, ⟨3, 1, true⟩, ⟨9, 3, true⟩] = [2, 9, 5, 3] := by decide

example : score_hand [⟨5, 1, true⟩, ⟨5, 2, true⟩, ⟨5, 3, true⟩, ⟨3, 1, true⟩, ⟨9, 3, true⟩] = [3, 5, 9, 3] := by decide

example : evaluate_hand [⟨12, 1, true⟩, ⟨3, 2, true⟩] [⟨0, 1, true⟩, ⟨1, 1, true⟩, ⟨2, 1, true⟩] = [4, 3] := by decide

example : evaluate_hand [⟨12, 1, true⟩, ⟨12, 2, true⟩]
    [⟨0, 1, true⟩, ⟨1, 1, true⟩, ⟨2, 1, true⟩, ⟨12, 3, true⟩, ⟨7, 0, true⟩] = [3, 12, 7, 2] := by decide

/-! ### Order lemmas for Python list comparison -/

theorem pyListLt_irrefl (l : List Nat) : pyListLt l l = false := by
  induction l with
  | nil => rfl
  | cons x xs ih => simp [pyListLt, ih]

theorem pyListLt_trans {a b c : List Nat} (h1 : pyListLt a b = true)
    (h2 : pyListLt b c = true) : pyListLt a c = true := by
  induction a generalizing b c with
  | nil =>
    cases c with
    | nil =>
      cases b with
      | nil => exact h1
      | cons y ys => simp [pyListLt] at h2
    | cons z zs => simp [pyListLt]
  | cons x xs ih =>
    cases b with
    | nil => simp [pyListLt] at h1
    | cons y ys =>
      cases c with
      | nil => simp [pyListLt] at h2
      | cons z zs =>
        simp only [pyListLt] at h1 h2 ⊢
        by_cases hxy : x < y
        · by_cases hyz : y < z
          · have hxz : x < z := Nat.lt_trans hxy hyz
            simp [hxz]
          · by_cases hzy : z < y
            · simp [hyz, hzy] at h2
            · have hyz' : y = z := by omega
              subst hyz'
              simp [hxy]
        · by_cases hyx : y < x
          · simp [hxy, hyx] at h1
          · have hxy' : x = y := by omega
            subst hxy'
            simp only [Nat.lt_irrefl, if_false] at h1
            by_cases hyz : x < z
            · simp [hyz]
            · by_cases hzy : z < x
              · simp [hyz, hzy] at h2
              · have hyz' : x = z := by omega
                subst hyz'
                simp only [Nat.lt_irrefl, if_false] at h2 ⊢
                exact ih h1 h2

theorem pyListLt_total (a b : List Nat) :
    pyListLt a b = true ∨ a = b ∨ pyListLt b a = true := by
  induction a generalizing b with
  | nil =>
    cases b with
    | nil => simp
    | cons y ys => left; rfl
  | cons x xs ih =>
    cases b with
    | nil => right; right; rfl
    | cons y ys =>
      rcases Nat.lt_trichotomy x y with hxy | hxy | hxy
      · left; simp [pyListLt, hxy]
      · subst hxy
        rcases ih ys with h | h | h
        · left; simp [pyListLt, h]
        · right; left; rw [h]
        · right; right; simp [pyListLt, h]
      · right; right; simp [pyListLt, hxy]

theorem pyListLt_asymm {a b : List Nat} (h : pyListLt a b = true) :
    pyListLt b a = false := by
  by_contra hc
  have hba : pyListLt b a = true := by
    cases hb : pyListLt b a with
    | false => exact absurd hb hc
    | true => rfl
  have := pyListLt_trans h hba
  rw [pyListLt_irrefl] at this
  exact Bool.false_ne_true this

theorem pyListLt_false_trans {a b c : List Nat} (h1 : pyListLt a b = false)
    (h2 : pyListLt b c = false) : pyListLt a c = false := by
  cases hac : pyListLt a c with
  | false => rfl
  | true =>
    rcases pyListLt_total a b with h | h | h
    · rw [h] at h1; exact absurd h1 (by simp)
    · subst h; rw [hac] at h2; exact absurd h2 (by simp)
    · have := pyListLt_trans h hac
      rw [this] at h2; exact absurd h2 (by simp)

/-! ### The running-maximum fold used by `evaluate_hand` -/

/-- The fold `evaluate_hand` performs over the list of 5-card scores. -/
def pyFoldMax (init : List Nat) (l : List (List Nat)) : List Nat :=
  l.foldl (fun best x => if pyListLt best x then x else best) init

theorem pyFoldMax_not_lt_init (init : List Nat) (l : List (List Nat)) :
    pyListLt (pyFoldMax init l) init = false := by
  induction l generalizing init with
  | nil => simp [pyFoldMax, pyListLt_irrefl]
  | cons x xs ih =>
    simp only [pyFoldMax, List.foldl_cons]
    by_cases h : pyListLt init x = true
    · simp only [h, if_pos]
      exact pyListLt_false_trans (ih x) (pyListLt_asymm h)
    · simp only [Bool.not_eq_true] at h
      simp only [h, Bool.false_eq_true, if_false]
      exact ih init

theorem pyFoldMax_not_lt_mem (init : List Nat) (l : List (List Nat)) :
    ∀ x ∈ l, pyListLt (pyFoldMax init l) x = false := by
  induction l generalizing init with
  | nil => intro x hx; simp at hx
  | cons y ys ih =>
    intro x hx
    simp only [pyFoldMax, List.foldl_cons]
    rcases List.mem_cons.mp hx with rfl | hx
    · by_cases h : pyListLt init x = true
      · simp only [h, if_pos]
        exact pyFoldMax_not_lt_init x ys
      · simp only [Bool.not_eq_true] at h
        simp only [h, Bool.false_eq_true, if_false]
        exact pyListLt_false_trans (pyFoldMax_not_lt_init init ys) h
    · by_cases h : pyListLt init y = true
      · simp only [h, if_pos]; exact ih y x hx
      · simp only [Bool.not_eq_true] at h
        simp only [h, Bool.false_eq_true, if_false]
        exact ih init x hx

theorem pyFoldMax_cons (init x : List Nat) (xs : List (List Nat)) :
    pyFoldMax init (x :: xs) = pyFoldMax (if pyListLt init x then x else init) xs := rfl

theorem pyFoldMax_eq_init_or_mem (init : List Nat) (l : List (List Nat)) :
    pyFoldMax init l = init ∨ pyFoldMax init l ∈ l := by
  induction l generalizing init with
  | nil => left; rfl
  | cons x xs ih =>
    rw [pyFoldMax_cons]
    by_cases h : pyListLt init x = true
    · rw [if_pos h]
      rcases ih x with h' | h'
      · right; rw [h']; exact List.mem_cons_self _ _
      · right; exact List.mem_cons_of_mem _ h'
    · rw [if_neg h]
      rcases ih init with h' | h'
      · left; exact h'
      · right; exact List.mem_cons_of_mem _ h'

theorem pyFoldMax_mem (init : List Nat) (l : List (List Nat))
    (h : ∃ x ∈ l, pyListLt init x = true) : pyFoldMax init l ∈ l := by
  rcases pyFoldMax_eq_init_or_mem init l with heq | hm
  · exfalso
    rcases h with ⟨x, hx, hlt⟩
    have := pyFoldMax_not_lt_mem init l x hx
    rw [heq] at this
    rw [this] at hlt
    exact Bool.false_ne_true hlt
  · exact hm

/-! ### Sorting and combination lemmas -/

theorem sortAsc_perm (l : List Nat) : List.Perm (sortAsc l) l := List.perm_insertionSort _ l

theorem sortAsc_sorted (l : List Nat) : List.Sorted (· ≤ ·) (sortAsc l) :=
  List.sorted_insertionSort _ l

theorem sortAsc_eq_of_perm {l m : List Nat} (h : List.Perm l m)
    (hm : List.Sorted (· ≤ ·) m) : sortAsc l = m :=
  List.eq_of_perm_of_sorted ((sortAsc_perm l).trans h) (sortAsc_sorted l) hm

theorem headD_reverse_mem {l : List Nat} (h : l ≠ []) : l.reverse.headD 0 ∈ l := by
  cases hr : l.reverse with
  | nil => exact absurd (List.reverse_eq_nil_iff.mp hr) h
  | cons c r =>
    have hc : c ∈ l.reverse := by rw [hr]; exact List.mem_cons_self _ _
    rw [List.mem_reverse] at hc
    simpa [hr] using hc

theorem sorted_mem_le_last :
    ∀ (s : List Nat), List.Sorted (· ≤ ·) s → ∀ x ∈ s, x ≤ s.reverse.headD 0 := by
  intro s
  induction s with
  | nil => intro _ x hx; simp at hx
  | cons a t ih =>
    intro hs x hx
    rw [List.sorted_cons] at hs
    obtain ⟨ha, ht⟩ := hs
    cases t with
    | nil =>
      rcases List.mem_singleton.mp hx with rfl
      simp
    | cons b t2 =>
      have hne : (b :: t2).reverse ≠ [] := by simp
      have hrev : (a :: b :: t2).reverse.headD 0 = (b :: t2).reverse.headD 0 := by
        rw [List.reverse_cons]
        cases hr : (b :: t2).reverse with
        | nil => exact absurd hr hne
        | cons c r => simp
      rw [hrev]
      rcases List.mem_cons.mp hx with rfl | hx2
      · have hm : (b :: t2).reverse.headD 0 ∈ b :: t2 := headD_reverse_mem (by simp)
        exact ha _ hm
      · exact ih ht x hx2

theorem mem_le_sortDesc_headD {l : List Nat} {x : Nat} (hx : x ∈ l) :
    x ≤ (sortDesc l).headD 0 :=
  sorted_mem_le_last (sortAsc l) (sortAsc_sorted l) x ((sortAsc_perm l).mem_iff.mpr hx)

theorem sortDesc_headD_mem {l : List Nat} (h : l ≠ []) : (sortDesc l).headD 0 ∈ l := by
  have hne : sortAsc l ≠ [] := by
    intro hnil
    have hp := sortAsc_perm l
    rw [hnil] at hp
    exact h (hp.symm.eq_nil)
  exact (sortAsc_perm l).mem_iff.mp (headD_reverse_mem hne)

theorem nodup_five_sortDesc_headD_ge {l : List Nat} (hn : l.Nodup)
    (h5 : l.length = 5) : 4 ≤ (sortDesc l).headD 0 := by
  by_contra hlt
  push_neg at hlt
  have hb : ∀ x ∈ l, x < 4 := fun x hx =>
    Nat.lt_of_le_of_lt (mem_le_sortDesc_headD hx) hlt
  have hsub : l.toFinset ⊆ Finset.range 4 := by
    intro x hx
    rw [List.mem_toFinset] at hx
    exact Finset.mem_range.mpr (hb x hx)
  have hcard := Finset.card_le_card hsub
  rw [List.toFinset_card_of_nodup hn, h5, Finset.card_range] at hcard
  omega

theorem combinations_mem {α : Type} {n : Nat} {l c : List α}
    (h : c ∈ combinations n l) : c.length = n ∧ c.Sublist l := by
  induction l generalizing n c with
  | nil =>
    cases n with
    | zero =>
      rcases List.mem_singleton.mp h with rfl
      exact ⟨rfl, List.Sublist.refl _⟩
    | succ m => simp [combinations] at h
  | cons x xs ih =>
    cases n with
    | zero =>
      rcases List.mem_singleton.mp h with rfl
      exact ⟨rfl, List.nil_sublist _⟩
    | succ m =>
      simp only [combinations, List.mem_append, List.mem_map] at h
      rcases h with ⟨c2, hc2, rfl⟩ | h
      · obtain ⟨hl, hs⟩ := ih hc2
        exact ⟨by simp [hl], List.Sublist.cons₂ x hs⟩
      · obtain ⟨hl, hs⟩ := ih h
        exact ⟨hl, hs.cons x⟩

theorem combinations_ne_nil {α : Type} :
    ∀ (n : Nat) (l : List α), n ≤ l.length → combinations n l ≠ [] := by
  intro n
  induction n with
  | zero => intro l _; simp [combinations]
  | succ m ih =>
    intro l hl
    cases l with
    | nil => simp at hl
    | cons x xs =>
      simp only [combinations, ne_eq, List.append_eq_nil, not_and]
      intro hmap
      rw [List.map_eq_nil_iff] at hmap
      exact absurd hmap (ih xs (by simpa using hl))

theorem combinations_length {α : Type} :
    ∀ (n : Nat) (l : List α), (combinations n l).length = Nat.choose l.length n := by
  intro n l
  induction l generalizing n with
  | nil => cases n <;> simp [combinations]
  | cons x xs ih =>
    cases n with
    | zero => simp [combinations]
    | succ m =>
      simp only [combinations, List.length_append, List.length_map, ih,
        List.length_cons, Nat.choose_succ_succ]

/-! ### Positivity of 5-card scores over real decks -/

theorem count_value_le_four {l : List Card}
    (hnd : (l.map (fun c => (c.value, c.suit))).Nodup)
    (hs : ∀ c ∈ l, c.suit ≤ 3) (v : Nat) :
    (l.map Card.value).count v ≤ 4 := by
  classical
  have hcount : (l.map Card.value).count v =
      (l.filter (fun c => c.value == v)).length := by
    rw [List.count_eq_countP, List.countP_map, List.countP_eq_length_filter]
    rfl
  set l2 := l.filter (fun c => c.value == v) with hl2
  have hl2pairs : (l2.map (fun c => (c.value, c.suit))).Nodup :=
    hnd.sublist ((List.filter_sublist l).map _)
  have hfst : ∀ p ∈ l2.map (fun c => (c.value, c.suit)), p.1 = v := by
    intro p hp
    rw [List.mem_map] at hp
    obtain ⟨c, hc, rfl⟩ := hp
    have hmem := List.mem_filter.mp hc
    simpa using hmem.2
  have hsnd : (l2.map Card.suit).Nodup := by
    have hcomp : l2.map Card.suit = (l2.map (fun c => (c.value, c.suit))).map Prod.snd := by
      rw [List.map_map]
      rfl
    rw [hcomp]
    refine List.Nodup.map_on ?_ hl2pairs
    intro p hp q hq hpq
    have h1 := hfst p hp
    have h2 := hfst q hq
    cases p; cases q
    simp only at h1 h2 hpq
    simp [h1, h2, hpq]
  have hb : ∀ t ∈ l2.map Card.suit, t < 4 := by
    intro t ht
    rw [List.mem_map] at ht
    obtain ⟨c, hc, rfl⟩ := ht
    have := hs c (List.mem_of_mem_filter hc)
    omega
  have hsub : (l2.map Card.suit).toFinset ⊆ Finset.range 4 := by
    intro t ht
    rw [List.mem_toFinset] at ht
    exact Finset.mem_range.mpr (hb t ht)
  have hcard := Finset.card_le_card hsub
  rw [List.toFinset_card_of_nodup hsnd, Finset.card_range, List.length_map] at hcard
  rw [hcount]
  exact hcard

theorem replicate_lt_cons {k : Nat} (t : List Nat) (hk : 1 ≤ k) :
    pyListLt (List.replicate 8 0) (k :: t) = true := by
  show pyListLt (0 :: List.replicate 7 0) (k :: t) = true
  simp only [pyListLt]
  have hk0 : 0 < k := hk
  simp [hk0]

theorem replicate_lt_cons_zero {m : Nat} (rest : List Nat) (hm : 1 ≤ m) :
    pyListLt (List.replicate 8 0) (0 :: m :: rest) = true := by
  show pyListLt (0 :: 0 :: List.replicate 6 0) (0 :: m :: rest) = true
  simp only [pyListLt, Nat.lt_irrefl, if_false]
  show pyListLt (0 :: List.replicate 6 0) (m :: rest) = true
  simp only [pyListLt]
  have hm0 : 0 < m := hm
  simp [hm0]

theorem scoreVS_pos (values suits : List Nat) (h5 : values.length = 5)
    (hcnt : ∀ v, values.count v ≤ 4) :
    pyListLt (List.replicate 8 0) (scoreVS values suits) = true := by
  have hvne : values ≠ [] := by
    intro h; rw [h] at h5; simp at h5
  simp only [scoreVS]
  split_ifs with c1 c2 c3 c4 c5 c6 c7 c8 c9 c10
  · exact replicate_lt_cons _ (by omega)
  · exact replicate_lt_cons _ (by omega)
  · exact replicate_lt_cons _ (by omega)
  · exact replicate_lt_cons _ (by omega)
  · exact replicate_lt_cons _ (by omega)
  · exact replicate_lt_cons _ (by omega)
  · exact replicate_lt_cons _ (by omega)
  · exact replicate_lt_cons _ (by omega)
  · exact replicate_lt_cons _ (by omega)
  · exact replicate_lt_cons _ (by omega)
  · -- high-card branch: all value counts must be 1, so the five values are
    -- distinct and the top kicker is at least 4
    set M := (sortDesc (values.dedup.map fun v => values.count v)).headD 0 with hM
    have hdne : values.dedup ≠ [] := by
      cases values with
      | nil => exact absurd rfl hvne
      | cons a t =>
        intro h
        have ha : a ∈ (a :: t).dedup := List.mem_dedup.mpr (List.mem_cons_self _ _)
        rw [h] at ha
        simp at ha
    have hcne : (values.dedup.map fun v => values.count v) ≠ [] := by
      simpa using hdne
    have hMmem : M ∈ values.dedup.map fun v => values.count v :=
      sortDesc_headD_mem hcne
    obtain ⟨v0, hv0, hMv0⟩ := List.mem_map.mp hMmem
    have hM1 : 1 ≤ M := by
      rw [← hMv0]
      exact List.count_pos_iff.mpr (List.mem_dedup.mp hv0)
    have hM4 : M ≤ 4 := hMv0 ▸ hcnt v0
    simp only [beq_iff_eq] at c3 c8 c10
    have hMeq : M = 1 := by omega
    have hnd : values.Nodup := by
      rw [List.nodup_iff_count_le_one]
      intro a
      by_cases ha : a ∈ values
      · have hmem : values.count a ∈ values.dedup.map fun v => values.count v :=
          List.mem_map.mpr ⟨a, List.mem_dedup.mpr ha, rfl⟩
        have := mem_le_sortDesc_headD hmem
        omega
      · simp [List.count_eq_zero_of_not_mem ha]
    have hge := nodup_five_sortDesc_headD_ge hnd h5
    cases hsd : sortDesc values with
    | nil =>
      exfalso
      have hlen : (sortDesc values).length = values.length := by
        simp [sortDesc, sortAsc]
      rw [hsd, h5] at hlen
      simp at hlen
    | cons m rest =>
      rw [hsd] at hge
      simp only [List.headD_cons] at hge
      exact replicate_lt_cons_zero rest (by omega)

theorem evaluate_hand_eq_foldMax (hole_cards community_cards : List Card) :
    evaluate_hand hole_cards community_cards =
      pyFoldMax (List.replicate 8 0)
        ((combinations 5 (hole_cards ++ community_cards)).map score_hand) := by
  simp only [evaluate_hand, pyFoldMax, List.foldl_map]

theorem score_hand_pos {pool c : List Card}
    (hnd : (pool.map (fun cc => (cc.value, cc.suit))).Nodup)
    (hs : ∀ cc ∈ pool, cc.suit ≤ 3)
    (hc : c ∈ combinations 5 pool) :
    pyListLt (List.replicate 8 0) (score_hand c) = true := by
  obtain ⟨hlen, hsub⟩ := combinations_mem hc
  simp only [score_hand]
  apply scoreVS_pos
  · have hl : (sortAsc (c.map Card.value)).length = (c.map Card.value).length :=
      (sortAsc_perm _).length_eq
    rw [hl, List.length_map, hlen]
  · intro v
    have h1 : (sortAsc (c.map Card.value)).count v = (c.map Card.value).count v :=
      (sortAsc_perm _).count_eq v
    rw [h1]
    have h2 : (c.map Card.value).count v ≤ (pool.map Card.value).count v :=
      (hsub.map Card.value).count_le v
    exact Nat.le_trans h2 (count_value_le_four hnd hs v)

/-- C4 (amended): for 2 hole cards and a community of 3 to 5 distinct real
cards, `evaluate_hand` returns the maximum `score_hand` value over every
5-card subset of the combined cards (21 subsets when the community is
complete).  With fewer than 3 community cards the claim fails, see the
counterexample. -/
theorem evaluate_hand_max_over_subsets (hole_cards community_cards : List Card)
    (hhl : hole_cards.length = 2) (hcl3 : 3 ≤ community_cards.length)
    (hcl5 : community_cards.length ≤ 5)
    (hnd : ((hole_cards ++ community_cards).map (fun c => (c.value, c.suit))).Nodup)
    (hs : ∀ c ∈ hole_cards ++ community_cards, c.suit ≤ 3) :
    evaluate_hand hole_cards community_cards ∈
      (combinations 5 (hole_cards ++ community_cards)).map score_hand ∧
    (∀ sc ∈ (combinations 5 (hole_cards ++ community_cards)).map score_hand,
        pyListLt (evaluate_hand hole_cards community_cards) sc = false) ∧
    (community_cards.length = 5 →
        (combinations 5 (hole_cards ++ community_cards)).length = 21) := by
  rw [evaluate_hand_eq_foldMax]
  refine ⟨?_, ?_, ?_⟩
  · apply pyFoldMax_mem
    have hne : combinations 5 (hole_cards ++ community_cards) ≠ [] := by
      apply combinations_ne_nil
      rw [List.length_append, hhl]
      omega
    obtain ⟨c0, hc0⟩ := List.exists_mem_of_ne_nil _ hne
    exact ⟨score_hand c0, List.mem_map_of_mem _ hc0, score_hand_pos hnd hs hc0⟩
  · intro sc hsc
    exact pyFoldMax_not_lt_mem _ _ sc hsc
  · intro hc5
    rw [combinations_length, List.length_append, hhl, hc5]
    decide

/-- C4 witness: a concrete 2-hole/3-community input where the theorem's
conclusion is instantiated. -/
theorem evaluate_hand_max_over_subsets_witness :
    evaluate_hand [⟨12, 0, true⟩, ⟨12, 1, true⟩] [⟨0, 0, true⟩, ⟨1, 1, true⟩, ⟨2, 2, true⟩] ∈
      (combinations 5 ([⟨12, 0, true⟩, ⟨12, 1, true⟩] ++
        [⟨0, 0, true⟩, ⟨1, 1, true⟩, ⟨2, 2, true⟩])).map score_hand :=
  (evaluate_hand_max_over_subsets _ _ (by decide) (by decide) (by decide)
    (by decide) (by decide)).1

/-- C4 counterexample: with only 2 community cards there are no 5-card
subsets at all, and `evaluate_hand` returns the sentinel `[0] * 8`, which is
not the `score_hand` value of any 5-card subset.  The claim as stated, which
quantifies over community sets of 0 to 5 cards, is therefore false. -/
theorem evaluate_hand_short_community_cex :
    evaluate_hand [⟨0, 0, true⟩, ⟨5, 1, true⟩] [⟨7, 2, true⟩, ⟨9, 3, true⟩] =
      List.replicate 8 0 ∧
    evaluate_hand [⟨0, 0, true⟩, ⟨5, 1, true⟩] [⟨7, 2, true⟩, ⟨9, 3, true⟩] ∉
      (combinations 5 ([⟨0, 0, true⟩, ⟨5, 1, true⟩] ++
        [⟨7, 2, true⟩, ⟨9, 3, true⟩])).map score_hand := by
  constructor
  · decide
  · decide

/-- C7 counterexample: `score_hand` puts the royal flush in its own category
9 (`[9, 12]`) while every other straight flush is category 8, and it scores
the ace-low straight flush as `[8, 12]` (tie-break 12, not the claimed 3):
the steel wheel is ranked as the highest non-royal straight flush. -/
theorem straight_flush_category_cex :
    score_hand [⟨8, 3, true⟩, ⟨9, 3, true⟩, ⟨10, 3, true⟩, ⟨11, 3, true⟩, ⟨12, 3, true⟩] =
      [9, 12] ∧
    score_hand [⟨7, 3, true⟩, ⟨8, 3, true⟩, ⟨9, 3, true⟩, ⟨10, 3, true⟩, ⟨11, 3, true⟩] =
      [8, 11] ∧
    score_hand [⟨0, 3, true⟩, ⟨1, 3, true⟩, ⟨2, 3, true⟩, ⟨3, 3, true⟩, ⟨12, 3, true⟩] =
      [8, 12] ∧
    (score_hand [⟨8, 3, true⟩, ⟨9, 3, true⟩, ⟨10, 3, true⟩, ⟨11, 3, true⟩, ⟨12, 3, true⟩]).headD 0 ≠
      (score_hand [⟨7, 3, true⟩, ⟨8, 3, true⟩, ⟨9, 3, true⟩, ⟨10, 3, true⟩, ⟨11, 3, true⟩]).headD 0 ∧
    (score_hand [⟨0, 3, true⟩, ⟨1, 3, true⟩, ⟨2, 3, true⟩, ⟨3, 3, true⟩, ⟨12, 3, true⟩]).getD 1 0 ≠ 3 := by
  decide

/-- C7 (amended): in every suit, the royal flush scores `[9, 12]` in its own
top category; every straight flush from `lo` to `lo + 4` scores
`[8, lo + 4]`; and the ace-low straight flush scores `[8, 12]` — tie-break
12, making it (incorrectly, and unlike the non-flush wheel straight) the
highest non-royal straight flush. -/
theorem straight_flush_scoring (st : Fin 4) (lo : Fin 8) :
    score_hand [⟨lo.val, st.val, true⟩, ⟨lo.val + 1, st.val, true⟩, ⟨lo.val + 2, st.val, true⟩,
        ⟨lo.val + 3, st.val, true⟩, ⟨lo.val + 4, st.val, true⟩] = [8, lo.val + 4] ∧
    score_hand [⟨0, st.val, true⟩, ⟨1, st.val, true⟩, ⟨2, st.val, true⟩,
        ⟨3, st.val, true⟩, ⟨12, st.val, true⟩] = [8, 12] ∧
    score_hand [⟨8, st.val, true⟩, ⟨9, st.val, true⟩, ⟨10, st.val, true⟩,
        ⟨11, st.val, true⟩, ⟨12, st.val, true⟩] = [9, 12] := by
  revert st lo
  decide

theorem dedup_length_one_all_eq {l : List Nat} (h : l.dedup.length = 1) :
    ∀ a ∈ l, ∀ b ∈ l, a = b := by
  obtain ⟨x, hx⟩ := List.length_eq_one.mp h
  intro a ha b hb
  have ha2 := List.mem_dedup.mpr ha
  have hb2 := List.mem_dedup.mpr hb
  rw [hx] at ha2 hb2
  rw [List.mem_singleton.mp ha2, List.mem_singleton.mp hb2]

/-- C8: any five cards with ranks {A,2,3,4,5} of mixed suits score as the
straight category with tie-break 3 (`[4, 3]`); that score is strictly above
every ace-high high-card score and strictly below the 6-high straight. -/
theorem wheel_straight_score (cards : List Card)
    (hperm : List.Perm (cards.map Card.value) [0, 1, 2, 3, 12])
    (hmix : ∃ a ∈ cards.map Card.suit, ∃ b ∈ cards.map Card.suit, a ≠ b) :
    score_hand cards = [4, 3] ∧
    (∀ hc : List Card, (score_hand hc).take 2 = [0, 12] →
        pyListLt (score_hand hc) [4, 3] = true) ∧
    score_hand [⟨0, 0, true⟩, ⟨1, 1, true⟩, ⟨2, 2, true⟩, ⟨3, 3, true⟩, ⟨4, 0, true⟩] = [4, 4] ∧
    pyListLt [4, 3] [4, 4] = true := by
  refine ⟨?_, ?_, by decide, by decide⟩
  · have hsorted : sortAsc (cards.map Card.value) = [0, 1, 2, 3, 12] :=
      sortAsc_eq_of_perm hperm (by decide)
    have hflush : (cards.map Card.suit).dedup.length ≠ 1 := by
      intro h1
      obtain ⟨a, ha, b, hb, hab⟩ := hmix
      exact hab (dedup_length_one_all_eq h1 a ha b hb)
    have hf : ((cards.map Card.suit).dedup.length == 1) = false := by
      simp [hflush]
    simp only [score_hand, hsorted, scoreVS, hf]
    decide
  · intro hc h
    cases hsc : score_hand hc with
    | nil => rw [hsc] at h; simp at h
    | cons a t1 =>
      cases t1 with
      | nil => rw [hsc] at h; simp at h
      | cons b t2 =>
        rw [hsc] at h
        simp only [List.take_succ_cons, List.take_zero] at h
        have ha : a = 0 := by
          have := congrArg (fun l => l.headD 1) h
          simpa using this
        have hb : b = 12 := by
          have := congrArg (fun l => l.getD 1 0) h
          simpa using this
        subst ha
        subst hb
        simp [pyListLt]

/-- C8 witness: a concrete mixed-suit wheel scores `[4, 3]`. -/
theorem wheel_straight_score_witness :
    score_hand [⟨12, 0, true⟩, ⟨3, 1, true⟩, ⟨0, 0, true⟩, ⟨1, 2, true⟩, ⟨2, 3, true⟩] = [4, 3] :=
  (wheel_straight_score _ (by decide) (by decide)).1

/-! ### Game state model -/

/-- One entry of the `self.players` dict of `PokerGame`. -/
structure PlayerState where
  name : String
  chips : Int
  hand : List Card
  current_bet : Int
  folded : Bool
  all_in : Bool
  is_winner : Bool
  score : Option (List Nat)
deriving DecidableEq, Repr, Inhabited

/-- The mutable room state of a `PokerGame` instance.  `players` is the
insertion-ordered seat dict as an association list. -/
structure GameState where
  players : List (String × PlayerState)
  deck : List Card
  community_cards : List Card
  current_player_idx : Nat
  dealer_idx : Nat
  pot : Int
  current_bet : Int
  last_raise : Int
  game_state : String
  big_blind : Int
  small_blind : Int
  max_players : Nat
  fold_list : List String
  all_in_players : List String
  betting_round_complete : Bool
  last_aggressor : Option Nat
  min_raise : Int
  ante : Int
deriving DecidableEq, Repr, Inhabited

/-- Dict read `self.players[pid]` (first match; a miss raises in Python and
is unreachable behind the turn check). -/
def lookupP : List (String × PlayerState) → String → PlayerState
  | [], _ => default
  | kv :: rest, pid => if kv.1 == pid then kv.2 else lookupP rest pid

/-- In-place mutation of the dict entry `self.players[pid]` (first match). -/
def updatePlayer : List (String × PlayerState) → String →
    (PlayerState → PlayerState) → List (String × PlayerState)
  | [], _, _ => []
  | kv :: rest, pid, f =>
    if kv.1 == pid then (kv.1, f kv.2) :: rest
    else kv :: updatePlayer rest pid f

/-- In-place mutation of the dict entry at a given position (Python mutates
the aliased dict object, so object identity is position). -/
def modifyAt : List (String × PlayerState) → Nat →
    ((String × PlayerState) → (String × PlayerState)) → List (String × PlayerState)
  | [], _, _ => []
  | kv :: rest, 0, f => f kv :: rest
  | kv :: rest, i + 1, f => kv :: modifyAt rest i f

/-- The test `all(p.current_bet == self.current_bet or p.folded or p.all_in
for p in self.players.values())` from `next_player`. -/
def allMatched (players : List (String × PlayerState)) (current_bet : Int) : Bool :=
  players.all (fun kv => kv.2.current_bet == current_bet || kv.2.folded || kv.2.all_in)

/-- The `while True` loop body of `PokerGame.next_player`, with fuel; the
loop wraps at most once before hitting `initial_idx` and breaking. -/
def nextPlayerLoop (players : List (String × PlayerState)) (current_bet : Int)
    (last_aggressor : Option Nat) (initial_idx : Nat) :
    Nat → Nat → Bool → Nat × Bool
  | 0, idx, brc => (idx, brc)
  | fuel + 1, idx, brc =>
    let idx1 := (idx + 1) % players.length
    let p := ((players.get? idx1).map Prod.snd).getD default
    let okP := !p.folded && !p.all_in
    if okP && last_aggressor == some idx1 && allMatched players current_bet then
      (idx1, true)
    else if idx1 == initial_idx then
      (idx1, brc || allMatched players current_bet)
    else if okP then
      (idx1, brc)
    else
      nextPlayerLoop players current_bet last_aggressor initial_idx fuel idx1 brc

/-- `PokerGame.next_player`. -/
def next_player (s : GameState) : GameState :=
  let actives := s.players.filter (fun kv => !kv.2.folded && !kv.2.all_in)
  if actives.length ≤ 1 then
    { s with betting_round_complete := true }
  else
    let r := nextPlayerLoop s.players s.current_bet s.last_aggressor s.current_player_idx
      s.players.length s.current_player_idx s.betting_round_complete
    { s with current_player_idx := r.1, betting_round_complete := r.2 }

/-- The skip-folded/all-in `while` loop of `deal_next_street`, with fuel
(the Python loop bails out after one full wrap plus one step). -/
def skipInactiveLoop (players : List (String × PlayerState)) : Nat → Nat → Nat
  | 0, idx => idx
  | fuel + 1, idx =>
    let p := ((players.get? idx).map Prod.snd).getD default
    if p.folded || p.all_in then
      skipInactiveLoop players fuel ((idx + 1) % players.length)
    else idx

/-- `PokerGame.deal_next_street`: resets the betting state of the street,
burns and deals the community cards, advances the street enum and seats the
first active player after the dealer. -/
def deal_next_street (s : GameState) : GameState :=
  if s.game_state == "showdown" || s.game_state == "round_complete" ||
     s.game_state == "waiting" then s
  else
    let s1 := { s with
      current_bet := 0,
      min_raise := s.big_blind,
      last_raise := s.big_blind,
      betting_round_complete := false,
      last_aggressor := none,
      players := s.players.map (fun kv => (kv.1, { kv.2 with current_bet := 0 })) }
    let intended : Option (String × Nat) :=
      if s1.game_state == "preflop" then some ("flop", 3)
      else if s1.game_state == "flop" then some ("turn", 1)
      else if s1.game_state == "turn" then some ("river", 1)
      else none
    match intended with
    | none => s1
    | some nc =>
      let dealt := ((s1.deck.drop 1).take nc.2).map (fun c => { c with showing := true })
      let s2 := { s1 with
        community_cards := s1.community_cards ++ dealt,
        deck := (s1.deck.drop 1).drop nc.2,
        game_state := nc.1 }
      if 0 < s2.players.length then
        let start_idx := (s2.dealer_idx + 1) % s2.players.length
        let idx := skipInactiveLoop s2.players (s2.players.length + 1) start_idx
        { s2 with current_player_idx := idx }
      else s2

/-- Reveal a seat's hole cards (`card.showing = True` loop). -/
def revealHand (p : PlayerState) : PlayerState :=
  { p with hand := p.hand.map (fun c => { c with showing := true }) }

/-- Python `max` over a nonempty list of scores (first maximal element). -/
def pyMaxScores : List (List Nat) → List Nat
  | [] => []
  | x :: xs => pyFoldMax x xs

/-- `PokerGame.handle_showdown` (the game-state mutations; statistics
recording, broadcasts and the restart timer are external side effects).
If one seat is unfolded it takes the whole pot with no evaluation;
otherwise every unfolded seat is scored with `evaluate_hand` and each
maximal-score seat receives `pot // len(winners)`.  Always ends in
`round_complete` and never resets `pot`. -/
def handle_showdown (s0 : GameState) : GameState :=
  let s := { s0 with game_state := "showdown" }
  let actives := s.players.filter (fun kv => !kv.2.folded)
  if actives.length == 1 then
    let i := s.players.findIdx (fun kv => !kv.2.folded)
    let s2 := { s with players := modifyAt s.players i (fun kv =>
      (kv.1, { revealHand kv.2 with chips := kv.2.chips + s.pot, is_winner := true })) }
    { s2 with game_state := "round_complete" }
  else
    let revealed := s.players.map (fun kv =>
      if kv.2.folded then kv else (kv.1, revealHand kv.2))
    let scored := revealed.map (fun kv =>
      if kv.2.folded then kv
      else (kv.1, { kv.2 with score := some (evaluate_hand kv.2.hand s.community_cards) }))
    let activeScores := (scored.filter (fun kv => !kv.2.folded)).map
      (fun kv => kv.2.score.getD [])
    let best := pyMaxScores activeScores
    let winners_count := ((scored.filter (fun kv => !kv.2.folded)).filter
      (fun kv => kv.2.score == some best)).length
    let win_amount := Int.fdiv s.pot (Int.ofNat winners_count)
    let paid := scored.map (fun kv =>
      if !kv.2.folded && kv.2.score == some best then
        (kv.1, { kv.2 with chips := kv.2.chips + win_amount, is_winner := true })
      else kv)
    { s with players := paid, game_state := "round_complete" }

/-- `PokerGame.check_round_complete`: routes a finished betting round to the
next street or to showdown, and an all-but-one-folded table to showdown. -/
def check_round_complete (s : GameState) : GameState :=
  if s.game_state == "showdown" || s.game_state == "round_complete" ||
     s.game_state == "waiting" then s
  else
    let actives := s.players.filter (fun kv => !kv.2.folded)
    if actives.length == 1 then
      handle_showdown { s with game_state := "showdown" }
    else if s.betting_round_complete then
      if s.game_state == "river" then
        handle_showdown { s with game_state := "showdown" }
      else
        deal_next_street s
    else s

/-- The small-blind seat position of `post_blinds`: heads-up the dealer,
otherwise the seat after the dealer. -/
def sbIndex (s : GameState) : Nat :=
  if s.players.length == 2 then s.dealer_idx
  else (s.dealer_idx + 1) % s.players.length

/-- The big-blind seat position of `post_blinds`: the seat after the small
blind. -/
def bbIndex (s : GameState) : Nat :=
  if s.players.length == 2 then (s.dealer_idx + 1) % 2
  else (s.dealer_idx + 2) % s.players.length

/-- `PokerGame.post_blinds`: heads-up the dealer is the small blind;
otherwise the two seats after the dealer post.  Each posts
`min(blind, chips)`; the table bet becomes the big blind's posted amount;
min raise and last raise become the big blind; preflop first-to-act is the
small blind heads-up, else the seat after the big blind; the big blind is
the last aggressor. -/
def post_blinds (s : GameState) : GameState :=
  let n := s.players.length
  if n < 2 then s
  else
    let sb_pos := sbIndex s
    let bb_pos := bbIndex s
    let keys := s.players.map Prod.fst
    let sb_id := keys.getD sb_pos ""
    let sb_amount := min s.small_blind (lookupP s.players sb_id).chips
    let s1 := { s with
      players := updatePlayer s.players sb_id (fun p =>
        { p with chips := p.chips - sb_amount, current_bet := sb_amount }),
      pot := s.pot + sb_amount }
    let bb_id := keys.getD bb_pos ""
    let bb_amount := min s1.big_blind (lookupP s1.players bb_id).chips
    let s2 := { s1 with
      players := updatePlayer s1.players bb_id (fun p =>
        { p with chips := p.chips - bb_amount, current_bet := bb_amount }),
      pot := s1.pot + bb_amount }
    { s2 with
      current_bet := bb_amount,
      min_raise := s2.big_blind,
      last_raise := s2.big_blind,
      current_player_idx := if n == 2 then sb_pos else (bb_pos + 1) % n,
      last_aggressor := some bb_pos }

/-- `PokerGame._perform_action`: the per-action validation and mutation.
Returns the new state, the success flag and the message of the source. -/
def perform_action (s : GameState) (pid : String) (action : String)
    (amount : Option Int) (stake_gap : Int) : GameState × Bool × String :=
  let player := lookupP s.players pid
  if action == "check" then
    if stake_gap > 0 then
      (s, false, "Cannot check - there is an active bet, must call or fold")
    else if s.game_state == "preflop" && player.current_bet < s.big_blind then
      (s, false, "Cannot check - must at least call the big blind")
    else (next_player s, true, "Player checked")
  else if action == "fold" then
    let s1 := { s with
      players := updatePlayer s.players pid (fun p => { p with folded := true }),
      fold_list := s.fold_list ++ [pid] }
    (next_player s1, true, "Player folded")
  else if action == "call" then
    if stake_gap ≤ 0 then
      (s, false, "No bet to call - you can check instead")
    else
      let goes_all_in := stake_gap > player.chips
      let call_amount := if goes_all_in then player.chips else stake_gap
      let s1 := { s with
        players := updatePlayer s.players pid (fun p =>
          { p with chips := p.chips - call_amount,
                   current_bet := p.current_bet + call_amount,
                   all_in := if goes_all_in then true else p.all_in }),
        all_in_players :=
          if goes_all_in then s.all_in_players ++ [pid] else s.all_in_players,
        pot := s.pot + call_amount }
      (next_player s1, true, "Player called")
  else if action == "raise" then
    match amount with
    | none => (s, false, "Must specify raise amount")
    | some total_amount =>
      if total_amount == 0 then (s, false, "Must specify raise amount")
      else
        let raise_amount := total_amount - player.current_bet
        let min_raise_to := s.current_bet + s.min_raise
        if total_amount ≤ s.current_bet then
          (s, false, "Raise must be greater than current bet")
        else if total_amount < min_raise_to then
          (s, false, "Minimum raise not met")
        else if total_amount > player.chips + player.current_bet then
          (s, false, "Not enough chips")
        else
          let s1 := { s with
            players := updatePlayer s.players pid (fun p =>
              let p2 := { p with chips := p.chips - raise_amount,
                                 current_bet := total_amount }
              if p2.chips == 0 then { p2 with all_in := true } else p2),
            pot := s.pot + raise_amount,
            current_bet := total_amount,
            last_raise := total_amount - s.current_bet,
            min_raise := total_amount - s.current_bet,
            last_aggressor := some s.current_player_idx,
            betting_round_complete := false,
            all_in_players :=
              if player.chips - raise_amount == 0 then s.all_in_players ++ [pid]
              else s.all_in_players }
          (next_player s1, true, "Player raised")
  else if action == "all_in" then
    if player.chips == 0 then (s, false, "No chips to go all-in with")
    else
      let all_in_amount := player.chips
      let new_bet := player.current_bet + all_in_amount
      let raises := new_bet > s.current_bet
      let s1 := { s with
        players := updatePlayer s.players pid (fun p =>
          { p with chips := 0, all_in := true,
                   current_bet := p.current_bet + all_in_amount }),
        all_in_players := s.all_in_players ++ [pid],
        pot := s.pot + all_in_amount,
        last_raise := if raises then new_bet - s.current_bet else s.last_raise,
        current_bet := if raises then new_bet else s.current_bet,
        min_raise := if raises then new_bet - s.current_bet else s.min_raise,
        last_aggressor := if raises then some s.current_player_idx else s.last_aggressor,
        betting_round_complete := if raises then false else s.betting_round_complete }
      (next_player s1, true, "Player is all-in")
  else (s, false, "Invalid action")

/-- `PokerGame.handle_player_action`: precondition checks in source order
(round_complete, then waiting/showdown, then turn, then folded/all-in),
then the action itself, then `check_round_complete` on success. -/
def handle_player_action (s : GameState) (pid : String) (action : String)
    (amount : Option Int) : GameState × Bool × String :=
  if s.game_state == "round_complete" then
    (s, false, "Game is waiting for winner to start new round")
  else if s.game_state == "waiting" || s.game_state == "showdown" then
    (s, false, "Game is not in progress")
  else if !((s.players.map Prod.fst).get? s.current_player_idx == some pid) then
    (s, false, "Not your turn")
  else
    let player := lookupP s.players pid
    if player.folded || player.all_in then
      (s, false, "Cannot act - player has folded or is all-in")
    else
      let stake_gap := s.current_bet - player.current_bet
      let r := perform_action s pid action amount stake_gap
      if r.2.1 then (check_round_complete r.1, r.2.1, r.2.2) else r

/-- One pass of `deal_hole_cards`: give one card off the top of the deck to
each unfolded seat, in seating order. -/
def deal_round : List (String × PlayerState) → List Card →
    List (String × PlayerState) × List Card
  | [], deck => ([], deck)
  | kv :: rest, deck =>
    if kv.2.folded then
      let r := deal_round rest deck
      (kv :: r.1, r.2)
    else
      match deck with
      | [] =>
        let r := deal_round rest []
        (kv :: r.1, r.2)
      | c :: deck2 =>
        let kv2 := (kv.1, { kv.2 with hand := kv.2.hand ++ [{ c with showing := true }] })
        let r := deal_round rest deck2
        (kv2 :: r.1, r.2)

/-- `PokerGame.deal_hole_cards`: clear all hands, then two dealing passes. -/
def deal_hole_cards (s : GameState) : GameState :=
  let cleared := s.players.map (fun kv => (kv.1, { kv.2 with hand := [] }))
  let r1 := deal_round cleared s.deck
  let r2 := deal_round r1.1 r1.2
  { s with players := r2.1, deck := r2.2 }

/-- The reset phase of `PokerGame.start_new_round` (lines before dealing):
fresh shuffled deck (passed in, since shuffling is random), cleared board,
`pot = 0`, reset betting state, reset per-seat hand state, dealer index
clamped, antes collected.  The transport-layer connection-repair loop at the
top of the source method only touches global socket registries and is not
part of the room state. -/
def reset_for_new_round (s : GameState) (newDeck : List Card) : GameState :=
  let s1 := { s with
    deck := newDeck,
    community_cards := [],
    pot := 0,
    current_bet := 0,
    last_raise := s.big_blind,
    min_raise := s.big_blind,
    betting_round_complete := false,
    last_aggressor := none,
    all_in_players := [],
    fold_list := [],
    game_state := "preflop",
    players := s.players.map (fun kv => (kv.1,
      { kv.2 with hand := [], current_bet := 0, folded := false, all_in := false,
                  is_winner := false, score := none })) }
  let s2 := if 0 < s1.players.length ∧ s1.players.length ≤ s1.dealer_idx then
      { s1 with dealer_idx := 0 }
    else s1
  if s2.ante > 0 then
    { s2 with
      players := s2.players.map (fun kv =>
        (kv.1, { kv.2 with chips := kv.2.chips - min s2.ante kv.2.chips,
                           current_bet := min s2.ante kv.2.chips })),
      pot := s2.pot + (s2.players.map (fun kv => min s2.ante kv.2.chips)).sum }
  else s2

/-- `PokerGame.start_new_round`: with fewer than 2 seats falls back to
`waiting`; otherwise resets the hand state, deals hole cards and posts the
blinds. -/
def start_new_round (s : GameState) (newDeck : List Card) : GameState :=
  if s.players.length < 2 then { s with game_state := "waiting" }
  else post_blinds (deal_hole_cards (reset_for_new_round s newDeck))

/-! ### State projection (`get_game_state`) -/

/-- The dictionary `Card.to_dict` produces: either an opaque placeholder
`{"hidden": True}` or the full value/suit names. -/
inductive CardView where
  | hidden : CardView
  | shown (value suit : String) : CardView
deriving DecidableEq, Repr

/-- Rank names used by `Card.to_dict`. -/
def valueNames : List String :=
  ["2", "3", "4", "5", "6", "7", "8", "9", "10", "J", "Q", "K", "A"]

/-- Suit names used by `Card.to_dict`. -/
def suitNames : List String := ["Diamonds", "Clubs", "Hearts", "Spades"]

/-- `Card.to_dict`. -/
def cardToDict (c : Card) : CardView :=
  if !c.showing then CardView.hidden
  else CardView.shown (valueNames.getD c.value "") (suitNames.getD c.suit "")

/-- The per-seat portion of a `get_game_state` snapshot. -/
structure PlayerView where
  name : String
  chips : Int
  current_bet : Int
  folded : Bool
  all_in : Bool
  is_winner : Bool
  score : Option (List Nat)
  hand : List CardView
deriving DecidableEq, Repr

/-- The per-seat projection of `get_game_state`: hole cards are shown via
`to_dict` only to the recipient or when the street is `showdown`; otherwise
one opaque placeholder per card held. -/
def playerView (game_state : String) (for_player_sid : Option String)
    (sid : String) (p : PlayerState) : PlayerView :=
  { name := p.name, chips := p.chips, current_bet := p.current_bet,
    folded := p.folded, all_in := p.all_in, is_winner := p.is_winner,
    score := p.score,
    hand :=
      if p.hand.isEmpty then []
      else if some sid == for_player_sid || game_state == "showdown" then
        p.hand.map cardToDict
      else
        p.hand.map (fun _ => CardView.hidden) }

/-- The full snapshot `PokerGame.get_game_state` builds for one recipient. -/
structure GameView where
  pot : Int
  community_cards : List CardView
  current_bet : Int
  game_state : String
  current_player : Option String
  max_players : Nat
  big_blind : Int
  last_raise : Int
  min_raise : Int
  players : List (String × PlayerView)
deriving DecidableEq, Repr

/-- `PokerGame.get_game_state(for_player_sid)`. -/
def get_game_state (s : GameState) (for_player_sid : Option String) : GameView :=
  { pot := s.pot,
    community_cards := s.community_cards.map cardToDict,
    current_bet := s.current_bet,
    game_state := s.game_state,
    current_player :=
      if s.game_state == "waiting" then none
      else (s.players.map Prod.fst).get? s.current_player_idx,
    max_players := s.max_players,
    big_blind := s.big_blind,
    last_raise := s.last_raise,
    min_raise := s.min_raise,
    players := s.players.map (fun kv =>
      (kv.1, playerView s.game_state for_player_sid kv.1 kv.2)) }

/-! ### Chip-sum quantities -/

/-- Sum of all seats' remaining stacks. -/
def sumChips (players : List (String × PlayerState)) : Int :=
  (players.map (fun kv => kv.2.chips)).sum

/-- Sum of all seats' current-street contributions. -/
def sumBets (players : List (String × PlayerState)) : Int :=
  (players.map (fun kv => kv.2.current_bet)).sum

/-- The conserved quantity of this implementation: the pot already contains
every current-street contribution, so `pot + Σ stacks` is the hand total. -/
def chipSum (s : GameState) : Int := s.pot + sumChips s.players

/-- The quantity named by the spec's chip-conservation invariant:
`pot + Σ stacks + Σ current-street contributions`. -/
def tripleSum (s : GameState) : Int := s.pot + sumChips s.players + sumBets s.players

/-! ### Concrete fixtures (also replay the end-to-end example of the spec) -/

/-- A deck stub with enough cards for a hand. -/
def mkDeck : List Card := (List.range 20).map (fun i => ⟨i % 13, i % 4, false⟩)

/-- A fresh seat with the given stack. -/
def exPlayer (nm : String) (chips : Int) : PlayerState :=
  { name := nm, chips := chips, hand := [], current_bet := 0, folded := false,
    all_in := false, is_winner := false, score := none }

/-- Two seats, stacks 1000/1000, blinds 10/20, dealer at seat 0, fresh
preflop hand before blinds. -/
def exBase : GameState :=
  { players := [("A", exPlayer "A" 1000), ("B", exPlayer "B" 1000)],
    deck := mkDeck, community_cards := [], current_player_idx := 0, dealer_idx := 0,
    pot := 0, current_bet := 0, last_raise := 0, game_state := "preflop",
    big_blind := 20, small_blind := 10, max_players := 8, fold_list := [],
    all_in_players := [], betting_round_complete := false, last_aggressor := none,
    min_raise := 0, ante := 0 }

/-- The same table with the blinds posted. -/
def exAfterBlinds : GameState := post_blinds exBase

example : exAfterBlinds.pot = 30 := by decide

example : exAfterBlinds.current_bet = 20 := by decide

example : (lookupP exAfterBlinds.players "A").chips = 990 := by decide

example : (lookupP exAfterBlinds.players "B").chips = 980 := by decide

example : exAfterBlinds.current_player_idx = 0 := by decide

example : exAfterBlinds.min_raise = 20 := by decide

example : (handle_player_action exAfterBlinds "A" "call" none).2.1 = true := by decide

example : (handle_player_action exAfterBlinds "A" "call" none).1.game_state = "flop" := by decide

example : (handle_player_action exAfterBlinds "A" "call" none).1.pot = 40 := by decide

example : (handle_player_action exAfterBlinds "A" "call" none).1.current_bet = 0 := by decide

example : (handle_player_action exAfterBlinds "A" "call" none).1.min_raise = 20 := by decide

example : (handle_player_action exAfterBlinds "A" "call" none).1.community_cards.length = 3 := by decide

/-! ### Chip conservation lemmas -/

theorem sumChips_cons (kv : String × PlayerState) (rest : List (String × PlayerState)) :
    sumChips (kv :: rest) = kv.2.chips + sumChips rest := by
  simp [sumChips]

theorem sumChips_updatePlayer (ps : List (String × PlayerState)) (pid : String)
    (f : PlayerState → PlayerState) (hmem : pid ∈ ps.map Prod.fst) :
    sumChips (updatePlayer ps pid f) =
      sumChips ps + ((f (lookupP ps pid)).chips - (lookupP ps pid).chips) := by
  induction ps with
  | nil => simp at hmem
  | cons kv rest ih =>
    by_cases h : kv.1 == pid
    · simp only [updatePlayer, h, if_pos, lookupP]
      rw [sumChips_cons, sumChips_cons]
      ring
    · have hmem2 : pid ∈ rest.map Prod.fst := by
        simp only [List.map_cons, List.mem_cons] at hmem
        rcases hmem with h1 | h1
        · exfalso
          apply h
          rw [h1]
          exact beq_self_eq_true kv.1
        · exact h1
      simp only [updatePlayer, h, Bool.false_eq_true, if_false, lookupP]
      rw [sumChips_cons, sumChips_cons, ih hmem2]
      ring

theorem sumChips_updatePlayer_chips_eq (ps : List (String × PlayerState))
    (pid : String) (f : PlayerState → PlayerState)
    (hf : ∀ p, (f p).chips = p.chips) :
    sumChips (updatePlayer ps pid f) = sumChips ps := by
  induction ps with
  | nil => rfl
  | cons kv rest ih =>
    by_cases h : kv.1 == pid
    · simp only [updatePlayer, h, if_pos]
      rw [sumChips_cons, sumChips_cons, hf]
    · simp only [updatePlayer, h, Bool.false_eq_true, if_false]
      rw [sumChips_cons, sumChips_cons, ih]

theorem sumChips_map (ps : List (String × PlayerState))
    (F : (String × PlayerState) → (String × PlayerState))
    (hF : ∀ kv, (F kv).2.chips = kv.2.chips) :
    sumChips (ps.map F) = sumChips ps := by
  induction ps with
  | nil => rfl
  | cons kv rest ih =>
    rw [List.map_cons, sumChips_cons, sumChips_cons, hF, ih]

theorem chipSum_next_player (s : GameState) : chipSum (next_player s) = chipSum s := by
  unfold next_player
  dsimp only
  split <;> rfl

theorem chipSum_deal_next_street (s : GameState) :
    chipSum (deal_next_street s) = chipSum s := by
  unfold deal_next_street
  dsimp only
  split
  · rfl
  · split
    · simp only [chipSum]
      rw [sumChips_map]
      intro kv
      rfl
    · split
      · simp only [chipSum]
        rw [sumChips_map]
        intro kv
        rfl
      · simp only [chipSum]
        rw [sumChips_map]
        intro kv
        rfl

theorem handle_showdown_game_state (s : GameState) :
    (handle_showdown s).game_state = "round_complete" := by
  unfold handle_showdown
  dsimp only
  split <;> rfl

theorem chipSum_check_round_complete (s : GameState)
    (h : (check_round_complete s).game_state ≠ "round_complete") :
    chipSum (check_round_complete s) = chipSum s := by
  unfold check_round_complete at h ⊢
  dsimp only at h ⊢
  split_ifs at h ⊢ with h1 h2 h3 h4
  · rfl
  · exact absurd (handle_showdown_game_state _) h
  · exact absurd (handle_showdown_game_state _) h
  · exact chipSum_deal_next_street s
  · rfl

theorem perform_action_chipSum_check (s : GameState) (pid : String)
    (amount : Option Int) (stake_gap : Int) :
    chipSum (perform_action s pid "check" amount stake_gap).1 = chipSum s := by
  unfold perform_action
  rw [if_pos (by decide : ("check" == "check") = true)]
  try dsimp only
  split_ifs
  · rfl
  · rfl
  · exact chipSum_next_player s

theorem perform_action_chipSum_fold (s : GameState) (pid : String)
    (amount : Option Int) (stake_gap : Int) :
    chipSum (perform_action s pid "fold" amount stake_gap).1 = chipSum s := by
  unfold perform_action
  rw [if_neg (by decide : ¬ ("fold" == "check") = true),
      if_pos (by decide : ("fold" == "fold") = true)]
  dsimp only
  rw [chipSum_next_player]
  simp only [chipSum]
  rw [sumChips_updatePlayer_chips_eq]
  intro p
  rfl

theorem perform_action_chipSum_call (s : GameState) (pid : String)
    (amount : Option Int) (stake_gap : Int)
    (hmem : pid ∈ s.players.map Prod.fst) :
    chipSum (perform_action s pid "call" amount stake_gap).1 = chipSum s := by
  unfold perform_action
  rw [if_neg (by decide : ¬ ("call" == "check") = true),
      if_neg (by decide : ¬ ("call" == "fold") = true),
      if_pos (by decide : ("call" == "call") = true)]
  dsimp only
  split_ifs
  · rfl
  · rw [chipSum_next_player]
    simp only [chipSum]
    rw [sumChips_updatePlayer _ _ _ hmem]
    dsimp only
    ring
  · rw [chipSum_next_player]
    simp only [chipSum]
    rw [sumChips_updatePlayer _ _ _ hmem]
    dsimp only
    ring

theorem perform_action_chipSum_raise (s : GameState) (pid : String)
    (amount : Option Int) (stake_gap : Int)
    (hmem : pid ∈ s.players.map Prod.fst) :
    chipSum (perform_action s pid "raise" amount stake_gap).1 = chipSum s := by
  unfold perform_action
  rw [if_neg (by decide : ¬ ("raise" == "check") = true),
      if_neg (by decide : ¬ ("raise" == "fold") = true),
      if_neg (by decide : ¬ ("raise" == "call") = true),
      if_pos (by decide : ("raise" == "raise") = true)]
  cases amount with
  | none => rfl
  | some total_amount =>
    dsimp only
    split_ifs
    · rfl
    · rfl
    · rfl
    · rfl
    · rw [chipSum_next_player]
      simp only [chipSum]
      rw [sumChips_updatePlayer _ _ _ hmem]
      try dsimp only
      split
      · ring
      · ring
    · rw [chipSum_next_player]
      simp only [chipSum]
      rw [sumChips_updatePlayer _ _ _ hmem]
      try dsimp only
      split
      · ring
      · ring

theorem perform_action_chipSum_all_in (s : GameState) (pid : String)
    (amount : Option Int) (stake_gap : Int)
    (hmem : pid ∈ s.players.map Prod.fst) :
    chipSum (perform_action s pid "all_in" amount stake_gap).1 = chipSum s := by
  unfold perform_action
  rw [if_neg (by decide : ¬ ("all_in" == "check") = true),
      if_neg (by decide : ¬ ("all_in" == "fold") = true),
      if_neg (by decide : ¬ ("all_in" == "call") = true),
      if_neg (by decide : ¬ ("all_in" == "raise") = true),
      if_pos (by decide : ("all_in" == "all_in") = true)]
  dsimp only
  split_ifs
  · rfl
  · rw [chipSum_next_player]
    simp only [chipSum]
    rw [sumChips_updatePlayer _ _ _ hmem]
    dsimp only
    ring
  · rw [chipSum_next_player]
    simp only [chipSum]
    rw [sumChips_updatePlayer _ _ _ hmem]
    dsimp only
    ring

theorem perform_action_chipSum (s : GameState) (pid : String) (action : String)
    (amount : Option Int) (stake_gap : Int)
    (hmem : pid ∈ s.players.map Prod.fst) :
    chipSum (perform_action s pid action amount stake_gap).1 = chipSum s := by
  by_cases hc : action = "check"
  · subst hc; exact perform_action_chipSum_check s pid amount stake_gap
  by_cases hf : action = "fold"
  · subst hf; exact perform_action_chipSum_fold s pid amount stake_gap
  by_cases hca : action = "call"
  · subst hca; exact perform_action_chipSum_call s pid amount stake_gap hmem
  by_cases hr : action = "raise"
  · subst hr; exact perform_action_chipSum_raise s pid amount stake_gap hmem
  by_cases ha : action = "all_in"
  · subst ha; exact perform_action_chipSum_all_in s pid amount stake_gap hmem
  unfold perform_action
  rw [if_neg (by simpa using hc), if_neg (by simpa using hf),
      if_neg (by simpa using hca), if_neg (by simpa using hr),
      if_neg (by simpa using ha)]

theorem getD_mem_of_lt {α : Type} [Inhabited α] {l : List α} {i : Nat} {d : α}
    (h : i < l.length) : l.getD i d ∈ l := by
  rw [List.getD_eq_get?]
  have := List.get?_eq_get h
  rw [this]
  exact List.get_mem l i h

theorem updatePlayer_keys (ps : List (String × PlayerState)) (pid : String)
    (f : PlayerState → PlayerState) :
    (updatePlayer ps pid f).map Prod.fst = ps.map Prod.fst := by
  induction ps with
  | nil => rfl
  | cons kv rest ih =>
    by_cases h : kv.1 == pid
    · simp [updatePlayer, h]
    · simp [updatePlayer, h, ih]

theorem sbIndex_lt (s : GameState) (h2 : 2 ≤ s.players.length)
    (hd : s.dealer_idx < s.players.length) : sbIndex s < s.players.length := by
  unfold sbIndex
  split_ifs
  · exact hd
  · exact Nat.mod_lt _ (by omega)

theorem bbIndex_lt (s : GameState) (h2 : 2 ≤ s.players.length)
    (hd : s.dealer_idx < s.players.length) : bbIndex s < s.players.length := by
  unfold bbIndex
  split_ifs with hb
  · have hl : s.players.length = 2 := by simpa using hb
    rw [hl]
    exact Nat.mod_lt _ (by omega)
  · exact Nat.mod_lt _ (by omega)

theorem post_blinds_chipSum (s : GameState) (hd : s.dealer_idx < s.players.length) :
    chipSum (post_blinds s) = chipSum s := by
  unfold post_blinds
  dsimp only
  by_cases h : s.players.length < 2
  · rw [if_pos h]
  · rw [if_neg h]
    have h2 : 2 ≤ s.players.length := by omega
    have hsbmem : (s.players.map Prod.fst).getD (sbIndex s) "" ∈ s.players.map Prod.fst := by
      apply getD_mem_of_lt
      rw [List.length_map]
      exact sbIndex_lt s h2 hd
    have hbbmem : (s.players.map Prod.fst).getD (bbIndex s) "" ∈ s.players.map Prod.fst := by
      apply getD_mem_of_lt
      rw [List.length_map]
      exact bbIndex_lt s h2 hd
    simp only [chipSum]
    rw [sumChips_updatePlayer _ _ _ (by rw [updatePlayer_keys]; exact hbbmem),
        sumChips_updatePlayer _ _ _ hsbmem]
    dsimp only
    ring

theorem handle_player_action_chipSum (s : GameState) (pid action : String)
    (amount : Option Int)
    (hok : (handle_player_action s pid action amount).2.1 = true)
    (hnotrc : (handle_player_action s pid action amount).1.game_state ≠ "round_complete") :
    chipSum (handle_player_action s pid action amount).1 = chipSum s := by
  unfold handle_player_action at hok hnotrc ⊢
  dsimp only at hok hnotrc ⊢
  split_ifs at hok hnotrc ⊢ with h1 h2 h3 h4 h5
  · have hnotrc2 : (check_round_complete (perform_action s pid action amount
        (s.current_bet - (lookupP s.players pid).current_bet)).1).game_state ≠
        "round_complete" := hnotrc
    show chipSum (check_round_complete (perform_action s pid action amount
        (s.current_bet - (lookupP s.players pid).current_bet)).1) = chipSum s
    rw [chipSum_check_round_complete _ hnotrc2]
    apply perform_action_chipSum
    have h3' : (s.players.map Prod.fst).get? s.current_player_idx = some pid := by
      simpa using h3
    exact List.get?_mem h3'
  · exact absurd hok h5

/-- C1 counterexample: the spec's quantity `pot + Σ stacks + Σ contributions`
is not preserved by blind posting (the pot in this implementation already
contains the current-street contributions, so the sum counts them twice):
with stacks 1000/1000 and blinds 10/20 it moves from 2000 to 2030. -/
theorem chip_conservation_triple_sum_cex :
    tripleSum exBase = 2000 ∧
    tripleSum (post_blinds exBase) = 2030 ∧
    tripleSum (post_blinds exBase) ≠ tripleSum exBase := by
  refine ⟨by decide, by decide, by decide⟩

/-- C1 (amended): chips posted to a bet are moved into the pot immediately,
so the conserved quantity is `pot + Σ stacks` (the spec's triple sum counts
street contributions twice).  It is preserved by every accepted player
action as long as the hand has not resolved (at showdown the pot is paid
into stacks while the pot field is retained, see C10), and by blind posting
and street dealing. -/
theorem chip_conservation_pot_stack_sum :
    (∀ (s : GameState) (pid action : String) (amount : Option Int),
        (handle_player_action s pid action amount).2.1 = true →
        (handle_player_action s pid action amount).1.game_state ≠ "round_complete" →
        chipSum (handle_player_action s pid action amount).1 = chipSum s) ∧
    (∀ s : GameState, s.dealer_idx < s.players.length →
        chipSum (post_blinds s) = chipSum s) ∧
    (∀ s : GameState, chipSum (deal_next_street s) = chipSum s) :=
  ⟨handle_player_action_chipSum, post_blinds_chipSum, chipSum_deal_next_street⟩

/-- C1 witness: the accepted heads-up call after the blinds (which deals the
flop, not a showdown) preserves `pot + Σ stacks`, and posting the blinds on
the concrete table preserves it as well. -/
theorem chip_conservation_pot_stack_sum_witness :
    chipSum (handle_player_action exAfterBlinds "A" "call" none).1 = chipSum exAfterBlinds ∧
    chipSum (post_blinds exBase) = chipSum exBase :=
  ⟨chip_conservation_pot_stack_sum.1 exAfterBlinds "A" "call" none (by decide) (by decide),
   chip_conservation_pot_stack_sum.2.1 exBase (by decide)⟩

theorem perform_action_raise_spec (s : GameState) (pid : String) (T gap : Int)
    (hbet : 0 ≤ s.current_bet) :
    ((perform_action s pid "raise" (some T) gap).2.1 = true ↔
      (s.current_bet < T ∧ s.min_raise ≤ T - s.current_bet ∧
       T ≤ (lookupP s.players pid).chips + (lookupP s.players pid).current_bet)) ∧
    ((perform_action s pid "raise" (some T) gap).2.1 = false →
      (perform_action s pid "raise" (some T) gap).1 = s) := by
  unfold perform_action
  rw [if_neg (by decide : ¬ ("raise" == "check") = true),
      if_neg (by decide : ¬ ("raise" == "fold") = true),
      if_neg (by decide : ¬ ("raise" == "call") = true),
      if_pos (by decide : ("raise" == "raise") = true)]
  dsimp only
  split_ifs with h0 h1 h2 h3
  · refine ⟨?_, fun _ => rfl⟩
    constructor
    · intro h; exact absurd h (by simp)
    · rintro ⟨hcb, -, -⟩
      have hT : T = 0 := by simpa using h0
      omega
  · refine ⟨?_, fun _ => rfl⟩
    constructor
    · intro h; exact absurd h (by simp)
    · rintro ⟨hcb, -, -⟩
      omega
  · refine ⟨?_, fun _ => rfl⟩
    constructor
    · intro h; exact absurd h (by simp)
    · rintro ⟨-, hmr, -⟩
      omega
  · refine ⟨?_, fun _ => rfl⟩
    constructor
    · intro h; exact absurd h (by simp)
    · rintro ⟨-, -, hch⟩
      omega
  · refine ⟨?_, ?_⟩
    · constructor
      · intro _
        exact ⟨by omega, by omega, by omega⟩
      · intro _
        rfl
    · intro h
      exact absurd h (by simp)
  · refine ⟨?_, ?_⟩
    · constructor
      · intro _
        exact ⟨by omega, by omega, by omega⟩
      · intro _
        rfl
    · intro h
      exact absurd h (by simp)

/-- C3: with the seat in turn, not folded, not all-in, on a betting street
(and a non-negative table bet, true of every reachable state), a raise to
total contribution `T` is accepted iff `T` exceeds the table bet by at
least the minimum raise and is covered by stack plus existing contribution;
any rejected raise leaves the room state completely unchanged. -/
theorem raise_legality (s : GameState) (pid : String) (T : Int)
    (hbet : 0 ≤ s.current_bet)
    (hstate : s.game_state = "preflop" ∨ s.game_state = "flop" ∨
      s.game_state = "turn" ∨ s.game_state = "river")
    (hturn : (s.players.map Prod.fst).get? s.current_player_idx = some pid)
    (hnf : (lookupP s.players pid).folded = false)
    (hna : (lookupP s.players pid).all_in = false) :
    ((handle_player_action s pid "raise" (some T)).2.1 = true ↔
      (s.current_bet < T ∧ s.min_raise ≤ T - s.current_bet ∧
       T ≤ (lookupP s.players pid).chips + (lookupP s.players pid).current_bet)) ∧
    ((handle_player_action s pid "raise" (some T)).2.1 = false →
      (handle_player_action s pid "raise" (some T)).1 = s) := by
  have hr := perform_action_raise_spec s pid T
    (s.current_bet - (lookupP s.players pid).current_bet) hbet
  unfold handle_player_action
  rw [if_neg (by rcases hstate with h | h | h | h <;> simp [h]),
      if_neg (by rcases hstate with h | h | h | h <;> simp [h]),
      if_neg (by rw [hturn]; simp),
      if_neg (by simp [hnf, hna])]
  dsimp only
  by_cases hsucc : (perform_action s pid "raise" (some T)
      (s.current_bet - (lookupP s.players pid).current_bet)).2.1 = true
  · rw [if_pos hsucc]
    refine ⟨?_, ?_⟩
    · simpa [hsucc] using hr.1
    · intro h
      have h2 : (perform_action s pid "raise" (some T)
          (s.current_bet - (lookupP s.players pid).current_bet)).2.1 = false := h
      rw [hsucc] at h2
      exact absurd h2 (by simp)
  · rw [if_neg hsucc]
    exact hr

/-- C3 witness: on the concrete heads-up table after blinds (bet 20, min
raise 20), the small blind's raise to 40 is accepted. -/
theorem raise_legality_witness :
    (handle_player_action exAfterBlinds "A" "raise" (some 40)).2.1 = true :=
  (raise_legality exAfterBlinds "A" 40 (by decide) (by decide) (by decide)
    (by decide) (by decide)).1.mpr ⟨by decide, by decide, by decide⟩

/-- The concrete table in the `showdown` street, seat 0 to act. -/
def exShowdown : GameState := { exBase with game_state := "showdown" }

/-- C6 counterexample: in the `showdown` street with an out-of-turn seat,
`handle_player_action` rejects with the street-state message, not the
out-of-turn message — the street check runs before the turn check, so the
claimed order (turn, then seat flags, then street) is wrong. -/
theorem action_precondition_order_cex :
    (handle_player_action exShowdown "B" "fold" none).2.2 = "Game is not in progress" ∧
    (exShowdown.players.map Prod.fst).get? exShowdown.current_player_idx ≠ some "B" ∧
    (handle_player_action exShowdown "B" "fold" none).2.2 ≠ "Not your turn" := by
  refine ⟨by decide, by decide, by decide⟩

/-- C6 (amended): `handle_player_action` checks its preconditions in this
order, each with its own distinct rejection: (1) street `round_complete`,
(2) street `waiting` or `showdown`, (3) the acting seat is the active-turn
seat, (4) the seat is not folded and not all-in. -/
theorem action_precondition_order (s : GameState) (pid action : String)
    (amount : Option Int) :
    (s.game_state = "round_complete" →
      handle_player_action s pid action amount =
        (s, false, "Game is waiting for winner to start new round")) ∧
    (s.game_state ≠ "round_complete" →
      (s.game_state = "waiting" ∨ s.game_state = "showdown") →
      handle_player_action s pid action amount = (s, false, "Game is not in progress")) ∧
    (s.game_state ≠ "round_complete" → s.game_state ≠ "waiting" →
      s.game_state ≠ "showdown" →
      (s.players.map Prod.fst).get? s.current_player_idx ≠ some pid →
      handle_player_action s pid action amount = (s, false, "Not your turn")) ∧
    (s.game_state ≠ "round_complete" → s.game_state ≠ "waiting" →
      s.game_state ≠ "showdown" →
      (s.players.map Prod.fst).get? s.current_player_idx = some pid →
      ((lookupP s.players pid).folded = true ∨ (lookupP s.players pid).all_in = true) →
      handle_player_action s pid action amount =
        (s, false, "Cannot act - player has folded or is all-in")) ∧
    ("Game is waiting for winner to start new round" ≠ "Game is not in progress" ∧
     "Game is waiting for winner to start new round" ≠ "Not your turn" ∧
     "Game is waiting for winner to start new round" ≠
       "Cannot act - player has folded or is all-in" ∧
     "Game is not in progress" ≠ "Not your turn" ∧
     "Game is not in progress" ≠ "Cannot act - player has folded or is all-in" ∧
     "Not your turn" ≠ "Cannot act - player has folded or is all-in") := by
  refine ⟨?_, ?_, ?_, ?_, by decide⟩
  · intro h
    unfold handle_player_action
    rw [if_pos (by simp [h])]
  · intro h1 h2
    unfold handle_player_action
    rw [if_neg (by simp [h1]), if_pos (by rcases h2 with h | h <;> simp [h])]
  · intro h1 h2 h3 h4
    unfold handle_player_action
    rw [if_neg (by simp [h1]), if_neg (by simp [h2, h3]),
        if_pos (by
          have hb : ((s.players.map Prod.fst).get? s.current_player_idx ==
              some pid) = false := by
            rw [beq_eq_false_iff_ne]
            exact h4
          rw [hb]
          rfl)]
  · intro h1 h2 h3 h4 h5
    unfold handle_player_action
    rw [if_neg (by simp [h1]), if_neg (by simp [h2, h3]),
        if_neg (by rw [h4]; simp)]
    dsimp only
    rw [if_pos (by rcases h5 with h | h <;> simp [h])]

/-- C6 witness: the amended order instantiated on the concrete showdown
table with an out-of-turn seat. -/
theorem action_precondition_order_witness :
    handle_player_action exShowdown "B" "fold" none =
      (exShowdown, false, "Game is not in progress") :=
  (action_precondition_order exShowdown "B" "fold" none).2.1 (by decide)
    (Or.inr (by decide))

/-! ### Lookup and update lemmas for the seat dict -/

theorem lookupP_updatePlayer_ne (ps : List (String × PlayerState)) (pid qid : String)
    (f : PlayerState → PlayerState) (hne : qid ≠ pid) :
    lookupP (updatePlayer ps pid f) qid = lookupP ps qid := by
  induction ps with
  | nil => rfl
  | cons kv rest ih =>
    by_cases h : kv.1 == pid
    · have hkv : kv.1 = pid := by simpa using h
      have hq : (kv.1 == qid) = false := by
        rw [beq_eq_false_iff_ne, hkv]
        exact fun he => hne he.symm
      simp only [updatePlayer, h, if_pos, lookupP, hq, Bool.false_eq_true, if_false]
    · simp only [updatePlayer, h, Bool.false_eq_true, if_false, lookupP]
      by_cases hq : kv.1 == qid
      · simp only [hq, if_pos]
      · simp only [hq, Bool.false_eq_true, if_false]
        exact ih

theorem lookupP_updatePlayer_self (ps : List (String × PlayerState)) (pid : String)
    (f : PlayerState → PlayerState) (hmem : pid ∈ ps.map Prod.fst) :
    lookupP (updatePlayer ps pid f) pid = f (lookupP ps pid) := by
  induction ps with
  | nil => simp at hmem
  | cons kv rest ih =>
    by_cases h : kv.1 == pid
    · simp only [updatePlayer, h, if_pos, lookupP]
    · have hmem2 : pid ∈ rest.map Prod.fst := by
        simp only [List.map_cons, List.mem_cons] at hmem
        rcases hmem with h1 | h1
        · exact absurd (by rw [h1]; exact beq_self_eq_true kv.1) h
        · exact h1
      simp only [updatePlayer, h, Bool.false_eq_true, if_false, lookupP]
      exact ih hmem2

theorem lookupP_updatePlayer_all_in (ps : List (String × PlayerState))
    (pid qid : String) (f : PlayerState → PlayerState)
    (hf : ∀ p, (f p).all_in = p.all_in) :
    (lookupP (updatePlayer ps pid f) qid).all_in = (lookupP ps qid).all_in := by
  induction ps with
  | nil => rfl
  | cons kv rest ih =>
    by_cases h : kv.1 == pid
    · by_cases hq : kv.1 == qid
      · simp only [updatePlayer, h, if_pos, lookupP, hq]
        exact hf kv.2
      · simp only [updatePlayer, h, if_pos, lookupP, hq, Bool.false_eq_true, if_false]
    · simp only [updatePlayer, h, Bool.false_eq_true, if_false, lookupP]
      by_cases hq : kv.1 == qid
      · simp only [hq, if_pos]
      · simp only [hq, Bool.false_eq_true, if_false]
        exact ih

theorem getD_ne_of_nodup {l : List String} (hnd : l.Nodup) {i j : Nat}
    (hi : i < l.length) (hj : j < l.length) (hij : i ≠ j) (d : String) :
    l.getD i d ≠ l.getD j d := by
  have e1 : l.getD i d = l.get ⟨i, hi⟩ := by
    rw [List.getD_eq_get?, List.get?_eq_get hi]
    rfl
  have e2 : l.getD j d = l.get ⟨j, hj⟩ := by
    rw [List.getD_eq_get?, List.get?_eq_get hj]
    rfl
  intro heq
  rw [e1, e2] at heq
  have := (List.Nodup.get_inj_iff hnd).mp heq
  exact hij (by simpa using this)

theorem sbIndex_ne_bbIndex (s : GameState) (h2 : 2 ≤ s.players.length)
    (hd : s.dealer_idx < s.players.length) : sbIndex s ≠ bbIndex s := by
  unfold sbIndex bbIndex
  split_ifs with hb
  · have hl : s.players.length = 2 := by simpa using hb
    rw [hl] at hd
    omega
  · have h3 : 3 ≤ s.players.length := by
      rcases Nat.lt_or_ge s.players.length 3 with h | h
      · exfalso
        apply hb
        have hl : s.players.length = 2 := by omega
        simp [hl]
      · exact h
    intro heq
    have hmod : Nat.ModEq s.players.length (s.dealer_idx + 1) (s.dealer_idx + 2) := heq
    have hdvd := (Nat.modEq_iff_dvd' (by omega)).mp hmod
    have hle : s.players.length ≤ 1 := Nat.le_of_dvd (by omega) (by simpa using hdvd)
    omega

/-- The heads-up table where the big-blind seat holds only 5 chips against a
20-chip big blind. -/
def exShortBB : GameState :=
  { exBase with players := [("A", exPlayer "A" 1000), ("B", exPlayer "B" 5)] }

/-- C5 counterexample: when the big-blind seat's stack (5) is smaller than
the big blind (20), `post_blinds` empties the stack but never sets the
all-in flag, and the table bet level becomes the 5 actually posted, not the
big blind amount — so the claim's all-in clause and bet-level clause are
both false on the code. -/
theorem post_blinds_short_stack_cex :
    (lookupP exShortBB.players "B").chips < exShortBB.big_blind ∧
    (lookupP (post_blinds exShortBB).players "B").chips = 0 ∧
    (lookupP (post_blinds exShortBB).players "B").all_in = false ∧
    (post_blinds exShortBB).current_bet = 5 ∧
    ¬((lookupP (post_blinds exShortBB).players "B").all_in = true ∧
      (post_blinds exShortBB).current_bet = exShortBB.big_blind) := by
  refine ⟨by decide, by decide, by decide, by decide, by decide⟩

/-- C5 (amended): with 2 seats the dealer posts the small blind and the
other seat the big blind (3+ seats: the two seats after the dealer); each
blind seat posts `min(blind, stack)`; the all-in flag is never set by blind
posting, even when a stack is exhausted; the table bet level is the amount
the big-blind seat actually posted; minimum raise and last raise are set to
the big blind; first to act is the seat after the big blind (heads-up, the
dealer/small blind); the big blind is the last aggressor. -/
theorem post_blinds_spec (s : GameState)
    (h2 : 2 ≤ s.players.length) (hd : s.dealer_idx < s.players.length)
    (hnd : (s.players.map Prod.fst).Nodup) :
    (lookupP (post_blinds s).players ((s.players.map Prod.fst).getD (sbIndex s) "")).chips =
      (lookupP s.players ((s.players.map Prod.fst).getD (sbIndex s) "")).chips -
        min s.small_blind
          (lookupP s.players ((s.players.map Prod.fst).getD (sbIndex s) "")).chips ∧
    (lookupP (post_blinds s).players
        ((s.players.map Prod.fst).getD (sbIndex s) "")).current_bet =
      min s.small_blind
        (lookupP s.players ((s.players.map Prod.fst).getD (sbIndex s) "")).chips ∧
    (lookupP (post_blinds s).players ((s.players.map Prod.fst).getD (bbIndex s) "")).chips =
      (lookupP s.players ((s.players.map Prod.fst).getD (bbIndex s) "")).chips -
        min s.big_blind
          (lookupP s.players ((s.players.map Prod.fst).getD (bbIndex s) "")).chips ∧
    (lookupP (post_blinds s).players
        ((s.players.map Prod.fst).getD (bbIndex s) "")).current_bet =
      min s.big_blind
        (lookupP s.players ((s.players.map Prod.fst).getD (bbIndex s) "")).chips ∧
    (post_blinds s).current_bet =
      min s.big_blind
        (lookupP s.players ((s.players.map Prod.fst).getD (bbIndex s) "")).chips ∧
    (post_blinds s).min_raise = s.big_blind ∧
    (post_blinds s).last_raise = s.big_blind ∧
    (post_blinds s).current_player_idx =
      (if s.players.length = 2 then sbIndex s
       else (bbIndex s + 1) % s.players.length) ∧
    (post_blinds s).last_aggressor = some (bbIndex s) ∧
    (∀ pid : String,
      (lookupP (post_blinds s).players pid).all_in = (lookupP s.players pid).all_in) := by
  have hne_pos : sbIndex s ≠ bbIndex s := sbIndex_ne_bbIndex s h2 hd
  have hsb_lt : sbIndex s < (s.players.map Prod.fst).length := by
    rw [List.length_map]
    exact sbIndex_lt s h2 hd
  have hbb_lt : bbIndex s < (s.players.map Prod.fst).length := by
    rw [List.length_map]
    exact bbIndex_lt s h2 hd
  have hne_ids : (s.players.map Prod.fst).getD (sbIndex s) "" ≠
      (s.players.map Prod.fst).getD (bbIndex s) "" :=
    getD_ne_of_nodup hnd hsb_lt hbb_lt hne_pos ""
  have hsbmem : (s.players.map Prod.fst).getD (sbIndex s) "" ∈ s.players.map Prod.fst :=
    getD_mem_of_lt hsb_lt
  have hbbmem : (s.players.map Prod.fst).getD (bbIndex s) "" ∈ s.players.map Prod.fst :=
    getD_mem_of_lt hbb_lt
  unfold post_blinds
  rw [if_neg (by omega)]
  dsimp only
  refine ⟨?_, ?_, ?_, ?_, ?_, rfl, rfl, ?_, rfl, ?_⟩
  · rw [lookupP_updatePlayer_ne _ _ _ _ hne_ids, lookupP_updatePlayer_self _ _ _ hsbmem]
  · rw [lookupP_updatePlayer_ne _ _ _ _ hne_ids, lookupP_updatePlayer_self _ _ _ hsbmem]
  · rw [lookupP_updatePlayer_self _ _ _ (by rw [updatePlayer_keys]; exact hbbmem),
        lookupP_updatePlayer_ne _ _ _ _ (fun h => hne_ids h.symm)]
  · rw [lookupP_updatePlayer_self _ _ _ (by rw [updatePlayer_keys]; exact hbbmem),
        lookupP_updatePlayer_ne _ _ _ _ (fun h => hne_ids h.symm)]
  · rw [lookupP_updatePlayer_ne _ _ _ _ (fun h => hne_ids h.symm)]
  · by_cases hl : s.players.length = 2
    · rw [if_pos hl, if_pos (by simp [hl])]
    · rw [if_neg hl, if_neg (by simp [hl])]
  · intro pid
    exact Eq.trans (lookupP_updatePlayer_all_in _ _ _ _ (fun p => rfl))
      (lookupP_updatePlayer_all_in _ _ _ _ (fun p => rfl))

/-- C5 witness: on the short-stacked heads-up table the amended description
gives table bet 5 and an unchanged all-in flag for the big blind. -/
theorem post_blinds_spec_witness :
    (post_blinds exShortBB).current_bet =
      min exShortBB.big_blind
        (lookupP exShortBB.players
          ((exShortBB.players.map Prod.fst).getD (bbIndex exShortBB) "")).chips ∧
    (lookupP (post_blinds exShortBB).players "B").all_in =
      (lookupP exShortBB.players "B").all_in :=
  ⟨(post_blinds_spec exShortBB (by decide) (by decide) (by decide)).2.2.2.2.1,
   (post_blinds_spec exShortBB (by decide) (by decide) (by decide)).2.2.2.2.2.2.2.2.2 "B"⟩

/-! ### Hole-card redaction (C9) -/

theorem map_const_replicate {α β : Type} (l : List α) (c : β) :
    l.map (fun _ => c) = List.replicate l.length c := by
  induction l with
  | nil => rfl
  | cons x xs ih => simp [ih, List.replicate_succ]

/-- C9: in the snapshot `get_game_state` builds for a recipient, a seat's
hole cards can be non-hidden only when the seat is the recipient itself or
the street is `showdown` or `round_complete`; in every other case the hand
is exactly one opaque placeholder per card held. -/
theorem hole_card_redaction (s : GameState) (recipient : Option String)
    (sid : String) (pv : PlayerView)
    (hpv : (sid, pv) ∈ (get_game_state s recipient).players) :
    (∀ cv ∈ pv.hand, cv ≠ CardView.hidden →
      (some sid = recipient ∨ s.game_state = "showdown" ∨
        s.game_state = "round_complete")) ∧
    (¬(some sid = recipient ∨ s.game_state = "showdown" ∨
        s.game_state = "round_complete") →
      ∃ p : PlayerState, (sid, p) ∈ s.players ∧
        pv.hand = List.replicate p.hand.length CardView.hidden) := by
  simp only [get_game_state, List.mem_map] at hpv
  obtain ⟨kv, hkv, heq⟩ := hpv
  rw [Prod.mk.injEq] at heq
  obtain ⟨h1, h2⟩ := heq
  subst h1
  constructor
  · intro cv hcv hne
    rw [← h2] at hcv
    unfold playerView at hcv
    dsimp only at hcv
    by_cases hshow : (some kv.1 == recipient || s.game_state == "showdown") = true
    · rcases Bool.or_eq_true_iff.mp hshow with h | h
      · left
        simpa using h
      · right
        left
        simpa using h
    · exfalso
      apply hne
      split_ifs at hcv with he
      · exact absurd hcv (by simp)
      · rcases List.mem_map.mp hcv with ⟨c, -, hcc⟩
        exact hcc.symm
  · intro hnot
    push_neg at hnot
    obtain ⟨hrec, hsd, -⟩ := hnot
    refine ⟨kv.2, by simpa using hkv, ?_⟩
    rw [← h2]
    unfold playerView
    dsimp only
    have hcond : (some kv.1 == recipient || s.game_state == "showdown") = false := by
      rw [Bool.or_eq_false_iff]
      constructor
      · rw [beq_eq_false_iff_ne]
        exact hrec
      · rw [beq_eq_false_iff_ne]
        exact hsd
    split_ifs with hempty hcond2
    · cases hh : kv.2.hand with
      | nil => rfl
      | cons c t => rw [hh] at hempty; simp at hempty
    · exact absurd hcond2 (by simp [hcond])
    · exact map_const_replicate _ _

/-- The concrete preflop table with dealt hole cards used to instantiate the
redaction theorem. -/
def exHidden : GameState :=
  { exBase with players := [
      ("A", { exPlayer "A" 990 with hand := [⟨0, 0, true⟩, ⟨5, 1, true⟩] }),
      ("B", { exPlayer "B" 980 with hand := [⟨7, 2, true⟩, ⟨9, 3, true⟩] })] }

/-- C9 witness: in the preflop snapshot built for seat A, seat B's two hole
cards appear as exactly two opaque placeholders. -/
theorem hole_card_redaction_witness :
    ∃ p : PlayerState, ("B", p) ∈ exHidden.players ∧
      (playerView exHidden.game_state (some "A") "B"
          (lookupP exHidden.players "B")).hand =
        List.replicate p.hand.length CardView.hidden :=
  (hole_card_redaction exHidden (some "A") "B"
      (playerView exHidden.game_state (some "A") "B" (lookupP exHidden.players "B"))
      (by decide)).2 (by decide)

/-! ### Pot retention through round_complete (C10) -/

theorem handle_showdown_pot (s : GameState) : (handle_showdown s).pot = s.pot := by
  unfold handle_showdown
  dsimp only
  split <;> rfl

theorem deal_next_street_pot (s : GameState) : (deal_next_street s).pot = s.pot := by
  unfold deal_next_street
  dsimp only
  split
  · rfl
  · split
    · rfl
    · split
      · rfl
      · rfl

theorem check_round_complete_pot (s : GameState) :
    (check_round_complete s).pot = s.pot := by
  unfold check_round_complete
  dsimp only
  split_ifs
  · rfl
  · exact handle_showdown_pot _
  · exact handle_showdown_pot _
  · exact deal_next_street_pot _
  · rfl

theorem deal_hole_cards_pot (s : GameState) : (deal_hole_cards s).pot = s.pot := rfl

/-- C10: paying out the showdown never clears the pot field — it survives
the whole `round_complete` period and the snapshots broadcast then still
report it — and it is reset to 0 only by the reset phase of
`start_new_round` (with no antes configured, the default). -/
theorem pot_retained_until_new_round (s : GameState) (newDeck : List Card)
    (recipient : Option String) :
    (handle_showdown s).pot = s.pot ∧
    (handle_showdown s).game_state = "round_complete" ∧
    (check_round_complete s).pot = s.pot ∧
    (get_game_state (handle_showdown s) recipient).pot = s.pot ∧
    (deal_hole_cards s).pot = s.pot ∧
    (s.ante = 0 → (reset_for_new_round s newDeck).pot = 0) := by
  refine ⟨handle_showdown_pot s, handle_showdown_game_state s,
    check_round_complete_pot s, handle_showdown_pot s, deal_hole_cards_pot s, ?_⟩
  intro ha
  unfold reset_for_new_round
  dsimp only
  split
  · rw [if_neg (by simp [ha])]
  · rw [if_neg (by simp [ha])]

/-- C10 witness: with the default zero ante, the reset phase of
`start_new_round` zeroes the pot on the concrete table. -/
theorem pot_retained_until_new_round_witness :
    (reset_for_new_round exBase mkDeck).pot = 0 :=
  (pot_retained_until_new_round exBase mkDeck none).2.2.2.2.2 (by decide)

/-! ### Showdown resolution lemmas (C2) -/

theorem modifyAt_get? (l : List (String × PlayerState)) (i : Nat)
    (f : (String × PlayerState) → (String × PlayerState)) (j : Nat) :
    (modifyAt l i f).get? j = if j = i then (l.get? i).map f else l.get? j := by
  induction l generalizing i j with
  | nil =>
    simp only [modifyAt, List.get?_nil, Option.map_none']
    split <;> rfl
  | cons kv rest ih =>
    cases i with
    | zero =>
      cases j with
      | zero => simp [modifyAt]
      | succ j2 => simp [modifyAt]
    | succ i2 =>
      cases j with
      | zero => simp [modifyAt]
      | succ j2 =>
        simp only [modifyAt, List.get?_cons_succ, ih, Nat.succ.injEq]

theorem find_first_active (l : List (String × PlayerState))
    (hne : ∃ kv ∈ l, (!kv.2.folded) = true) :
    ∃ kv : String × PlayerState,
      l.get? (l.findIdx (fun kv => !kv.2.folded)) = some kv ∧ kv.2.folded = false := by
  induction l with
  | nil => simp at hne
  | cons kv0 rest ih =>
    rw [List.findIdx_cons]
    by_cases h : (!kv0.2.folded) = true
    · refine ⟨kv0, ?_, by simpa using h⟩
      rw [h]
      rfl
    · have hb : (!kv0.2.folded) = false := by
        cases hx : (!kv0.2.folded) with
        | false => rfl
        | true => exact absurd hx h
      rw [hb]
      simp only [cond_false]
      have hne2 : ∃ kv ∈ rest, (!kv.2.folded) = true := by
        rcases hne with ⟨kv, hkv, hkvp⟩
        rcases List.mem_cons.mp hkv with rfl | hkv2
        · exact absurd hkvp h
        · exact ⟨kv, hkv2, hkvp⟩
      obtain ⟨kv, hget, hfold⟩ := ih hne2
      exact ⟨kv, by simpa using hget, hfold⟩

theorem single_active_unique (l : List (String × PlayerState))
    (h : (l.filter (fun kv => !kv.2.folded)).length = 1) :
    ∀ j kv, l.get? j = some kv → kv.2.folded = false →
      j = l.findIdx (fun kv => !kv.2.folded) := by
  induction l with
  | nil => intro j kv hj; simp at hj
  | cons kv0 rest ih =>
    intro j kv hj hkv
    rw [List.findIdx_cons]
    by_cases h0 : (!kv0.2.folded) = true
    · rw [h0]
      simp only [cond_true]
      rw [List.filter_cons] at h
      rw [if_pos h0] at h
      simp only [List.length_cons, Nat.succ.injEq] at h
      have hrest : rest.filter (fun kv => !kv.2.folded) = [] :=
        List.length_eq_zero.mp h
      cases j with
      | zero => rfl
      | succ j2 =>
        exfalso
        simp only [List.get?_cons_succ] at hj
        have hmem : kv ∈ rest := List.get?_mem hj
        have : kv ∈ rest.filter (fun kv => !kv.2.folded) :=
          List.mem_filter.mpr ⟨hmem, by simp [hkv]⟩
        rw [hrest] at this
        simp at this
    · have hb : (!kv0.2.folded) = false := by
        cases hx : (!kv0.2.folded) with
        | false => rfl
        | true => exact absurd hx h0
      rw [hb]
      simp only [cond_false]
      rw [List.filter_cons] at h
      rw [if_neg (by simp [hb])] at h
      cases j with
      | zero =>
        exfalso
        simp only [List.get?_cons_zero, Option.some.injEq] at hj
        rw [← hj] at hkv
        simp [hkv] at hb
      | succ j2 =>
        simp only [List.get?_cons_succ] at hj
        rw [ih h j2 kv hj hkv]

theorem combinations_map {α β : Type} (f : α → β) :
    ∀ (n : Nat) (l : List α),
      combinations n (l.map f) = (combinations n l).map (List.map f) := by
  intro n l
  induction l generalizing n with
  | nil => cases n <;> rfl
  | cons x xs ih =>
    cases n with
    | zero => rfl
    | succ m =>
      simp only [List.map_cons, combinations, ih, List.map_append, List.map_map]
      congr 1

/-- The value/suit part of a card, all that `score_hand` reads. -/
def cardKey (c : Card) : Nat × Nat := (c.value, c.suit)

theorem scores_map_key (l₁ l₂ : List Card) (h : l₁.map cardKey = l₂.map cardKey) :
    (combinations 5 l₁).map score_hand = (combinations 5 l₂).map score_hand := by
  have e : ∀ (l : List Card), (combinations 5 l).map score_hand =
      (combinations 5 (l.map cardKey)).map
        (fun ks => scoreVS (sortAsc (ks.map Prod.fst)) (ks.map Prod.snd)) := by
    intro l
    rw [combinations_map, List.map_map]
    apply List.map_congr_left
    intro c hc
    simp only [Function.comp_apply, score_hand, List.map_map]
    rfl
  rw [e l₁, e l₂, h]

theorem evaluate_hand_reveal (hole_cards community_cards : List Card) :
    evaluate_hand (hole_cards.map (fun c => { c with showing := true })) community_cards =
      evaluate_hand hole_cards community_cards := by
  rw [evaluate_hand_eq_foldMax, evaluate_hand_eq_foldMax]
  unfold pyFoldMax
  congr 1
  apply scores_map_key
  simp only [List.map_append, List.map_map]
  congr 1

theorem pyMaxScores_mem (l : List (List Nat)) (h : l ≠ []) : pyMaxScores l ∈ l := by
  cases l with
  | nil => exact absurd rfl h
  | cons x xs =>
    simp only [pyMaxScores]
    rcases pyFoldMax_eq_init_or_mem x xs with h2 | h2
    · rw [h2]
      exact List.mem_cons_self _ _
    · exact List.mem_cons_of_mem _ h2

theorem pyMaxScores_ub (l : List (List Nat)) :
    ∀ x ∈ l, pyListLt (pyMaxScores l) x = false := by
  cases l with
  | nil => intro x hx; simp at hx
  | cons y ys =>
    intro x hx
    simp only [pyMaxScores]
    rcases List.mem_cons.mp hx with rfl | hx2
    · exact pyFoldMax_not_lt_init x ys
    · exact pyFoldMax_not_lt_mem y ys x hx2

theorem some_beq_some (a b : List Nat) :
    ((some a : Option (List Nat)) == some b) = (a == b) := rfl

theorem handle_showdown_multi (s : GameState)
    (h2 : 2 ≤ (s.players.filter (fun kv => !kv.2.folded)).length) :
    ∃ best : List Nat,
      best ∈ (s.players.filter (fun kv => !kv.2.folded)).map
        (fun kv => evaluate_hand kv.2.hand s.community_cards) ∧
      (∀ sc ∈ (s.players.filter (fun kv => !kv.2.folded)).map
          (fun kv => evaluate_hand kv.2.hand s.community_cards),
        pyListLt best sc = false) ∧
      (handle_showdown s).players = s.players.map (fun kv =>
        if kv.2.folded then kv
        else if evaluate_hand kv.2.hand s.community_cards == best then
          (kv.1, { revealHand kv.2 with
            score := some (evaluate_hand kv.2.hand s.community_cards),
            chips := kv.2.chips + Int.fdiv s.pot (Int.ofNat
              (((s.players.filter (fun kv => !kv.2.folded)).filter
                (fun kv => evaluate_hand kv.2.hand s.community_cards == best)).length)),
            is_winner := true })
        else (kv.1, { revealHand kv.2 with
            score := some (evaluate_hand kv.2.hand s.community_cards) })) := by
  have hact : ¬ (((s.players.filter (fun kv => !kv.2.folded)).length == 1) = true) := by
    simp only [beq_iff_eq]
    omega
  have hne : (s.players.filter (fun kv => !kv.2.folded)).map
      (fun kv => evaluate_hand kv.2.hand s.community_cards) ≠ [] := by
    intro hnil
    have hlen := congrArg List.length hnil
    rw [List.length_map] at hlen
    simp only [List.length_nil] at hlen
    omega
  refine ⟨pyMaxScores ((s.players.filter (fun kv => !kv.2.folded)).map
      (fun kv => evaluate_hand kv.2.hand s.community_cards)),
    pyMaxScores_mem _ hne, pyMaxScores_ub _, ?_⟩
  unfold handle_showdown
  dsimp only
  rw [if_neg hact]
  dsimp only
  have hF2 : (s.players.map (fun kv =>
        if kv.2.folded then kv else (kv.1, revealHand kv.2))).map
      (fun kv => if kv.2.folded then kv
        else (kv.1, { kv.2 with
          score := some (evaluate_hand kv.2.hand s.community_cards) })) =
      s.players.map (fun kv => if kv.2.folded then kv
        else (kv.1, { revealHand kv.2 with
          score := some (evaluate_hand kv.2.hand s.community_cards) })) := by
    rw [List.map_map]
    apply List.map_congr_left
    intro kv hkv
    by_cases hf : kv.2.folded
    · simp [Function.comp_apply, hf]
    · have hf2 : kv.2.folded = false := by simpa using hf
      have hre : evaluate_hand (revealHand kv.2).hand s.community_cards =
          evaluate_hand kv.2.hand s.community_cards :=
        evaluate_hand_reveal kv.2.hand s.community_cards
      have hrf : (revealHand kv.2).folded = false := hf2
      simp only [Function.comp_apply, hf2, Bool.false_eq_true, if_false, hrf, hre]
  rw [hF2]
  have hfiltermap : (s.players.map (fun kv => if kv.2.folded then kv
      else (kv.1, { revealHand kv.2 with
        score := some (evaluate_hand kv.2.hand s.community_cards) }))).filter
        (fun kv => !kv.2.folded) =
      (s.players.filter (fun kv => !kv.2.folded)).map (fun kv =>
        if kv.2.folded then kv
        else (kv.1, { revealHand kv.2 with
          score := some (evaluate_hand kv.2.hand s.community_cards) })) := by
    rw [List.filter_map]
    congr 1
    apply List.filter_congr
    intro kv hkv
    by_cases hf : kv.2.folded
    · simp [Function.comp_apply, hf]
    · have hf2 : kv.2.folded = false := by simpa using hf
      have hrf : (revealHand kv.2).folded = false := hf2
      simp [Function.comp_apply, hf2, hrf]
  rw [hfiltermap]
  have hscores : ((s.players.filter (fun kv => !kv.2.folded)).map (fun kv =>
      if kv.2.folded then kv
      else (kv.1, { revealHand kv.2 with
        score := some (evaluate_hand kv.2.hand s.community_cards) }))).map
      (fun kv => kv.2.score.getD []) =
      (s.players.filter (fun kv => !kv.2.folded)).map
        (fun kv => evaluate_hand kv.2.hand s.community_cards) := by
    rw [List.map_map]
    apply List.map_congr_left
    intro kv hkv
    have hf : kv.2.folded = false := by
      have := (List.mem_filter.mp hkv).2
      simpa using this
    simp [Function.comp_apply, hf]
  rw [hscores]
  have hwinners : ((s.players.filter (fun kv => !kv.2.folded)).map (fun kv =>
      if kv.2.folded then kv
      else (kv.1, { revealHand kv.2 with
        score := some (evaluate_hand kv.2.hand s.community_cards) }))).filter
      (fun kv => kv.2.score == some (pyMaxScores
        ((s.players.filter (fun kv => !kv.2.folded)).map
          (fun kv => evaluate_hand kv.2.hand s.community_cards)))) =
      ((s.players.filter (fun kv => !kv.2.folded)).filter
        (fun kv => evaluate_hand kv.2.hand s.community_cards == pyMaxScores
          ((s.players.filter (fun kv => !kv.2.folded)).map
            (fun kv => evaluate_hand kv.2.hand s.community_cards)))).map (fun kv =>
        if kv.2.folded then kv
        else (kv.1, { revealHand kv.2 with
          score := some (evaluate_hand kv.2.hand s.community_cards) })) := by
    rw [List.filter_map]
    congr 1
    apply List.filter_congr
    intro kv hkv
    have hf : kv.2.folded = false := by
      have := (List.mem_filter.mp hkv).2
      simpa using this
    simp only [Function.comp_apply, hf, Bool.false_eq_true, if_false]
    rfl
  rw [hwinners, List.length_map]
  rw [List.map_map]
  apply List.map_congr_left
  intro kv hkv
  by_cases hf : kv.2.folded
  · simp [Function.comp_apply, hf]
  · have hf2 : kv.2.folded = false := by simpa using hf
    by_cases hb : (evaluate_hand kv.2.hand s.community_cards == pyMaxScores
        ((s.players.filter (fun kv => !kv.2.folded)).map
          (fun kv => evaluate_hand kv.2.hand s.community_cards))) = true
    · simp [Function.comp_apply, hf2, hb, some_beq_some, revealHand]
      intro hcontra
      exact absurd (by simpa using hb) hcontra
    · have hb2 : (evaluate_hand kv.2.hand s.community_cards == pyMaxScores
          ((s.players.filter (fun kv => !kv.2.folded)).map
            (fun kv => evaluate_hand kv.2.hand s.community_cards))) = false := by
        cases hx : (evaluate_hand kv.2.hand s.community_cards == pyMaxScores
            ((s.players.filter (fun kv => !kv.2.folded)).map
              (fun kv => evaluate_hand kv.2.hand s.community_cards))) with
        | false => rfl
        | true => exact absurd hx hb
      simp [Function.comp_apply, hf2, hb2, some_beq_some, revealHand]
      intro hcontra
      exact absurd hcontra (by simpa using hb2)

/-- Seat A's state after folding. -/
def exPlayerAFolded : PlayerState :=
  { exPlayer "A" 1000 with folded := true }

/-- A table where seat A has folded, leaving B as the only live seat. -/
def exFoldedA : GameState :=
  { exBase with
    pot := 30,
    players := [("A", exPlayerAFolded), ("B", exPlayer "B" 1000)] }

/-- C2.  Showdown resolution (`PokerGame.handle_showdown`).  If exactly one
seat is non-folded, it is the seat at `findIdx`, it receives the entire pot
with its score field untouched (no hand evaluation), every other seat is
unchanged, and the game transitions to `round_complete`.  Otherwise there is
a maximal score `best` among the evaluated 7-card hands of the non-folded
seats; every non-folded seat is scored with `evaluate_hand`, each seat whose
score equals `best` receives `pot // len(winners)` (Python floor division)
and is flagged as a winner, and the game transitions to `round_complete`. -/
theorem showdown_resolution (s : GameState) :
    ((s.players.filter (fun kv => !kv.2.folded)).length = 1 →
      (handle_showdown s).game_state = "round_complete" ∧
      ∃ kv : String × PlayerState,
        s.players.get? (s.players.findIdx (fun kv => !kv.2.folded)) = some kv ∧
        kv.2.folded = false ∧
        (∀ j kv2, s.players.get? j = some kv2 → kv2.2.folded = false →
          j = s.players.findIdx (fun kv => !kv.2.folded)) ∧
        (∀ j, (handle_showdown s).players.get? j =
          if j = s.players.findIdx (fun kv => !kv.2.folded) then
            some (kv.1, { revealHand kv.2 with
              chips := kv.2.chips + s.pot, is_winner := true })
          else s.players.get? j)) ∧
    (2 ≤ (s.players.filter (fun kv => !kv.2.folded)).length →
      (handle_showdown s).game_state = "round_complete" ∧
      ∃ best : List Nat,
        best ∈ (s.players.filter (fun kv => !kv.2.folded)).map
          (fun kv => evaluate_hand kv.2.hand s.community_cards) ∧
        (∀ sc ∈ (s.players.filter (fun kv => !kv.2.folded)).map
            (fun kv => evaluate_hand kv.2.hand s.community_cards),
          pyListLt best sc = false) ∧
        (handle_showdown s).players = s.players.map (fun kv =>
          if kv.2.folded then kv
          else if evaluate_hand kv.2.hand s.community_cards == best then
            (kv.1, { revealHand kv.2 with
              score := some (evaluate_hand kv.2.hand s.community_cards),
              chips := kv.2.chips + Int.fdiv s.pot (Int.ofNat
                (((s.players.filter (fun kv => !kv.2.folded)).filter
                  (fun kv => evaluate_hand kv.2.hand s.community_cards == best)).length)),
              is_winner := true })
          else (kv.1, { revealHand kv.2 with
              score := some (evaluate_hand kv.2.hand s.community_cards) }))) := by
  constructor
  · intro h1
    refine ⟨handle_showdown_game_state s, ?_⟩
    have hmem : ∃ kv ∈ s.players, (!kv.2.folded) = true := by
      rcases List.length_eq_one.mp h1 with ⟨kv, hkv⟩
      have : kv ∈ s.players.filter (fun kv => !kv.2.folded) := by
        rw [hkv]; exact List.mem_cons_self _ _
      exact ⟨kv, (List.mem_filter.mp this).1, (List.mem_filter.mp this).2⟩
    obtain ⟨kv, hget, hfold⟩ := find_first_active s.players hmem
    refine ⟨kv, hget, hfold, single_active_unique s.players h1, ?_⟩
    intro j
    have hcond : (((s.players.filter (fun kv => !kv.2.folded)).length == 1) = true) := by
      simp [h1]
    unfold handle_showdown
    dsimp only
    rw [if_pos hcond]
    dsimp only
    rw [modifyAt_get?]
    by_cases hj : j = s.players.findIdx (fun kv => !kv.2.folded)
    · rw [if_pos hj, if_pos hj, hget]
      rfl
    · rw [if_neg hj, if_neg hj]
  · intro h2
    exact ⟨handle_showdown_game_state s, handle_showdown_multi s h2⟩

/-- Witness for C2: both hypotheses are satisfiable — a table with a single
live seat resolves to `round_complete`, and so does a contested one. -/
theorem showdown_resolution_witness :
    ((exFoldedA.players.filter (fun kv => !kv.2.folded)).length = 1 ∧
      (handle_showdown exFoldedA).game_state = "round_complete") ∧
    (2 ≤ (exBase.players.filter (fun kv => !kv.2.folded)).length ∧
      (handle_showdown exBase).game_state = "round_complete") :=
  ⟨⟨by decide, ((showdown_resolution exFoldedA).1 (by decide)).1⟩,
   ⟨by decide, ((showdown_resolution exBase).2 (by decide)).1⟩⟩
